import Mathlib

/-!
Verification of the Process-Google-Timeline pipeline: a shallow embedding of
`extract_gps.py` and `generate_inserts.py`.

Modelling conventions:
* Python strings are modelled as `List Char` (abbreviated `Str`); Python's
  `str` comparison is code-point lexicographic, modelled by `strLe`.
* Python floats are modelled as exact decimals (`Dec`: an integer mantissa
  and a power-of-ten exponent, kept in normal form, so that structural
  equality coincides with value equality).  `float(...)` applied to a plain
  decimal literal is exact up to double rounding, and `repr` of such a float
  is the shortest decimal that round-trips; for literals of at most 15
  significant digits this agrees with the minimal exact decimal expansion
  modelled here.  Exponent notation, `inf`/`nan`, underscores in literals,
  and signed zero are outside the model.
* Fallible Python code (try/except) is modelled with `Option`.
-/

set_option maxHeartbeats 1600000

abbrev Str := List Char

/-- Whitespace characters stripped by Python's `str.strip()` and used as
separators by `str.split()` (ASCII subset; exotic unicode whitespace is not
modelled). -/
def isWs (c : Char) : Bool :=
  c == ' ' || c == '\t' || c == '\n' || c == '\r' || c == '\x0b' || c == '\x0c'

/-- Decimal digit test, by code point (matches Python's parsing of ASCII
digits `'0'..'9'`). -/
def isDig (c : Char) : Bool :=
  48 ≤ c.toNat && c.toNat ≤ 57

/-- The decimal digit characters, used when the program prints numbers. -/
def digCh : Nat → Char
  | 0 => '0' | 1 => '1' | 2 => '2' | 3 => '3' | 4 => '4'
  | 5 => '5' | 6 => '6' | 7 => '7' | 8 => '8' | _ => '9'

/-- Numeric value of a string of decimal digits (only applied to digit
characters). -/
def digitsNat (l : Str) : Nat :=
  l.foldl (fun a c => 10 * a + (c.toNat - 48)) 0

/-- Python `s.lstrip()` restricted to the whitespace set. -/
def dropWs (s : Str) : Str := s.dropWhile isWs

/-- Model of Python `str.strip()`: remove leading and trailing whitespace. -/
def stripWs (s : Str) : Str :=
  ((dropWs s).reverse.dropWhile isWs).reverse

/-- Model of `latlng_str.replace('°', '')`: removing every occurrence of the
one-character substring `°` is removal of the character. -/
def removeDeg (s : Str) : Str := s.filter (fun c => !(c == '°'))

/-- Model of Python `str.split(',')`: split on every comma, keeping empty
fields; the result is always nonempty. -/
def splitC : Str → List Str
  | [] => [[]]
  | c :: r =>
    if c = ',' then [] :: splitC r
    else
      match splitC r with
      | h :: t => (c :: h) :: t
      | [] => [[c]]

/-- Model of no-argument Python `str.split()`: split on whitespace runs,
producing no empty tokens.  `cur` accumulates the current token reversed. -/
def splitWsAux (cur : Str) : Str → List Str
  | [] => if cur.isEmpty then [] else [cur.reverse]
  | c :: r =>
    if isWs c then
      if cur.isEmpty then splitWsAux [] r else cur.reverse :: splitWsAux [] r
    else splitWsAux (c :: cur) r

/-- Model of Python `str.split()` with no arguments. -/
def splitWs (s : Str) : List Str := splitWsAux [] s

/-- Code-point lexicographic string comparison `a <= b`, the order Python uses
when comparing the `datetime` sort keys. -/
def strLe : Str → Str → Bool
  | [], _ => true
  | _ :: _, [] => false
  | a :: as, b :: bs =>
    if a.toNat < b.toNat then true
    else if b.toNat < a.toNat then false
    else strLe as bs

/-- Model of `timestamp_str.replace('Z', '+00:00')`. -/
def replaceZ (s : Str) : Str :=
  s.flatMap (fun c => if c = 'Z' then ("+00:00").toList else [c])

/-- Decimal rendering of a natural number, most significant digit first (the
digits Python's `str` prints for a nonnegative integer).  The first argument
is fuel, always called with at least the number of digits. -/
def toDecAux : Nat → Nat → Str
  | 0, _ => []
  | fuel + 1, n => if n < 10 then [digCh n] else toDecAux fuel (n / 10) ++ [digCh (n % 10)]

/-- Decimal rendering of a natural number. -/
def toDec (n : Nat) : Str := toDecAux (n + 1) n

/-- An exact decimal `num / 10 ^ exp`: the model of the Python floats stored
by the pipeline.  Values are kept in normal form (`exp = 0` or `num` not
divisible by 10), which is unique, so structural equality is value
equality — matching Python's `==` on the floats that occur here. -/
structure Dec where
  num : Int
  exp : Nat
deriving DecidableEq

/-- Normalisation: strip factors of ten shared by mantissa and exponent.
The first argument is the exponent (also serving as fuel). -/
def normDecAux : Nat → Int → Dec
  | 0, n => ⟨n, 0⟩
  | k + 1, n => if n % 10 = 0 then normDecAux k (n / 10) else ⟨n, k + 1⟩

/-- The rational value of an exact decimal (spec-side interpretation). -/
def Dec.toRat (x : Dec) : ℚ := (x.num : ℚ) / (10 : ℚ) ^ x.exp

/-- Core of the model of Python `float(...)` on an unsigned decimal literal:
`digits`, `digits.`, `digits.digits` or `.digits`. -/
def pyFloatCore (s : Str) : Option Dec :=
  let ip := s.takeWhile isDig
  let rest := s.dropWhile isDig
  match rest with
  | [] => if ip.isEmpty then none else some ⟨digitsNat ip, 0⟩
  | '.' :: fr =>
    if fr.all isDig && !(ip.isEmpty && fr.isEmpty) then
      some (normDecAux fr.length (digitsNat ip * 10 ^ fr.length + digitsNat fr))
    else none
  | _ => none

/-- Model of Python `float(...)` on decimal literals: optional surrounding
whitespace, optional sign, then an unsigned decimal literal.  Exponents,
`inf`/`nan` and digit-group underscores are not modelled. -/
def pyFloat (s : Str) : Option Dec :=
  match stripWs s with
  | '+' :: r => pyFloatCore r
  | '-' :: r => (pyFloatCore r).map (fun x => ⟨-x.num, x.exp⟩)
  | r => pyFloatCore r

/-- Model of Python `str()`/`repr` on the floats the pipeline stores: sign,
integer part, a dot, and the minimal nonempty fractional digit string
(`49.9`, `-97.0`).  Faithful for magnitudes in `[1e-4, 1e16)` where CPython
does not switch to exponent notation. -/
def floatRepr (x : Dec) : Str :=
  let sgn : Str := if x.num < 0 then ['-'] else []
  let m := x.num.natAbs
  let p := 10 ^ x.exp
  let fr := toDec (m % p)
  let fds : Str := if x.exp = 0 then ['0']
    else List.replicate (x.exp - fr.length) '0' ++ fr
  sgn ++ toDec (m / p) ++ ['.'] ++ fds

/-- A Python number as stored in the `altitude` field: `int` and `float`
print differently (`0` vs `0.0`), so the tag is kept. -/
inductive PyNum
  | int (n : Int)
  | float (x : Dec)
deriving DecidableEq

/-- Model of Python `str` on a stored number. -/
def pyNumStr : PyNum → Str
  | .int n => (if n < 0 then ['-'] else []) ++ toDec n.natAbs
  | .float x => floatRepr x

/-! ## Timestamps: model of `convert_to_utc`

`datetime.fromisoformat` is modelled on the grammar
`YYYY-MM-DD[<sep>HH:MM[:SS[.f{1..6}]][±HH:MM]]` with any single separator
character, the grammar CPython accepts for the timestamps this pipeline
sees (second-precision offset suffixes such as `±HH:MM:SS` are not
modelled).  `astimezone(timezone.utc)` on an offset-aware value shifts the
time of day by the offset and moves the date by at most one day; if the
result leaves Python's representable years 1..9999 the library raises
`OverflowError`, which `convert_to_utc` catches, falling back to returning
the input unchanged.  A naive parsed timestamp is interpreted in the local
timezone, modelled as the fixed offset `localOff` threaded through. -/

/-- A parsed Python `datetime` (microseconds kept, as `astimezone`
preserves them; `strftime('%Y-%m-%dT%H:%M:%SZ')` drops them). -/
structure DT where
  year : Int
  month : Nat
  day : Nat
  hour : Nat
  minute : Nat
  second : Nat
  micro : Nat
deriving DecidableEq

/-- Proleptic-Gregorian leap-year rule, as in Python's `calendar`/`datetime`. -/
def isLeap (y : Int) : Bool :=
  y % 4 == 0 && (!(y % 100 == 0) || y % 400 == 0)

/-- Length of a month (used by `datetime`'s day-of-month validation). -/
def daysInMonth (y : Int) (m : Nat) : Nat :=
  if m = 2 then (if isLeap y then 29 else 28)
  else if m = 4 ∨ m = 6 ∨ m = 9 ∨ m = 11 then 30
  else 31

/-- Field validity enforced by the `datetime` constructor. -/
def validDT (dt : DT) : Prop :=
  1 ≤ dt.year ∧ dt.year ≤ 9999 ∧ 1 ≤ dt.month ∧ dt.month ≤ 12 ∧
  1 ≤ dt.day ∧ dt.day ≤ daysInMonth dt.year dt.month ∧
  dt.hour ≤ 23 ∧ dt.minute ≤ 59 ∧ dt.second ≤ 59

instance (dt : DT) : Decidable (validDT dt) := by unfold validDT; infer_instance

/-- A not-yet-validated UTC offset: sign, hours, minutes. -/
structure OffRaw where
  neg : Bool
  hh : Nat
  mm : Nat
deriving DecidableEq

/-- Offset value in seconds. -/
def offVal (o : OffRaw) : Int :=
  (if o.neg then -1 else 1) * (o.hh * 3600 + o.mm * 60)

/-- Value of one decimal digit character. -/
def digVal (c : Char) : Option Nat :=
  if isDig c then some (c.toNat - 48) else none

/-- Two-digit field. -/
def num2 (a b : Char) : Option Nat := do
  let x ← digVal a
  let y ← digVal b
  pure (10 * x + y)

/-- Four-digit field. -/
def num4 (a b c d : Char) : Option Nat := do
  let x ← num2 a b
  let y ← num2 c d
  pure (100 * x + y)

/-- Offset suffix `±HH:MM` (must consume the whole rest of the string). -/
def parseOff : Str → Option OffRaw
  | [sg, h1, h2, ':', m1, m2] => do
    let hh ← num2 h1 h2
    let mm ← num2 m1 m2
    if sg = '+' then pure ⟨false, hh, mm⟩
    else if sg = '-' then pure ⟨true, hh, mm⟩
    else none
  | _ => none

/-- Fractional-second suffix and optional offset: `digits[±HH:MM]` with 1..6
fraction digits. -/
def parseFrac (s : Str) : Option (Nat × Option OffRaw) := do
  let ds := s.takeWhile isDig
  let rest := s.dropWhile isDig
  if 1 ≤ ds.length ∧ ds.length ≤ 6 then
    let mic := digitsNat ds * 10 ^ (6 - ds.length)
    match rest with
    | [] => pure (mic, none)
    | _ => do
      let o ← parseOff rest
      pure (mic, some o)
  else none

/-- Time-of-day part `HH:MM[:SS[.frac]][±HH:MM]` of an ISO string. -/
def parseTime : Str → Option (Nat × Nat × Nat × Nat × Option OffRaw)
  | h1 :: h2 :: ':' :: m1 :: m2 :: rest => do
    let hh ← num2 h1 h2
    let mm ← num2 m1 m2
    match rest with
    | [] => pure (hh, mm, 0, 0, none)
    | ':' :: s1 :: s2 :: rest2 => do
      let ss ← num2 s1 s2
      match rest2 with
      | [] => pure (hh, mm, ss, 0, none)
      | '.' :: rest3 => do
        let (mic, off) ← parseFrac rest3
        pure (hh, mm, ss, mic, off)
      | _ => do
        let o ← parseOff rest2
        pure (hh, mm, ss, 0, some o)
    | _ => do
      let o ← parseOff rest
      pure (hh, mm, 0, 0, some o)
  | _ => none

/-- Final validation gate: the range checks done by the `datetime` and
`timezone` constructors, collected in one place. -/
def mkDT (y mo d h mi s mic : Nat) (off : Option OffRaw) :
    Option (DT × Option Int) :=
  if 1 ≤ y ∧ y ≤ 9999 ∧ 1 ≤ mo ∧ mo ≤ 12 ∧ 1 ≤ d ∧ d ≤ daysInMonth y mo ∧
     h ≤ 23 ∧ mi ≤ 59 ∧ s ≤ 59 ∧ (∀ o ∈ off, o.hh ≤ 23 ∧ o.mm ≤ 59) then
    some (⟨y, mo, d, h, mi, s, mic⟩, off.map offVal)
  else none

instance (p : Option OffRaw) : Decidable (∀ o ∈ p, o.hh ≤ 23 ∧ o.mm ≤ 59) := by
  cases p <;> simp <;> infer_instance

/-- The date part `YYYY-MM-DD` (positional, as CPython parses it), returning
the remainder of the string. -/
def parseDate : Str → Option (Nat × Nat × Nat × Str)
  | y1 :: y2 :: y3 :: y4 :: c1 :: a1 :: a2 :: c2 :: b1 :: b2 :: rest =>
    if c1 = '-' ∧ c2 = '-' then
      match num4 y1 y2 y3 y4, num2 a1 a2, num2 b1 b2 with
      | some y, some mo, some d => some (y, mo, d, rest)
      | _, _, _ => none
    else none
  | _ => none

/-- Model of `datetime.fromisoformat` on the grammar described above,
returning the civil fields and the explicit offset in seconds, if any. -/
def fromisoformat (s : Str) : Option (DT × Option Int) :=
  match parseDate s with
  | some (y, mo, d, rest) =>
    match rest with
    | [] => mkDT y mo d 0 0 0 0 none
    | _ :: t =>
      match parseTime t with
      | some (h, mi, sec, mic, off) => mkDT y mo d h mi sec mic off
      | none => none
  | none => none

/-- Successor date, `None` when it would leave Python's year range. -/
def nextDay (y : Int) (m d : Nat) : Option (Int × Nat × Nat) :=
  if d < daysInMonth y m then some (y, m, d + 1)
  else if m < 12 then some (y, m + 1, 1)
  else if y < 9999 then some (y + 1, 1, 1)
  else none

/-- Predecessor date, `None` when it would leave Python's year range. -/
def prevDay (y : Int) (m d : Nat) : Option (Int × Nat × Nat) :=
  if 1 < d then some (y, m, d - 1)
  else if 1 < m then some (y, m - 1, daysInMonth y (m - 1))
  else if 1 < y then some (y - 1, 12, 31)
  else none

/-- Shift a date by at most one day (the most an offset under 24h can move
it); other shifts do not occur. -/
def addDays (y : Int) (m d : Nat) : Int → Option (Int × Nat × Nat)
  | 0 => some (y, m, d)
  | 1 => nextDay y m d
  | -1 => prevDay y m d
  | _ => none

/-- Model of `dt.astimezone(timezone.utc)` for a fixed offset of `offSec`
seconds: shift the time of day and carry into the date; `none` models the
`OverflowError` raised when the result leaves years 1..9999. -/
def toUtc (dt : DT) (offSec : Int) : Option DT :=
  let t : Int := dt.hour * 3600 + dt.minute * 60 + dt.second - offSec
  let delta := t / 86400
  let tod := t % 86400
  (addDays dt.year dt.month dt.day delta).map fun ymd =>
    ⟨ymd.1, ymd.2.1, ymd.2.2, (tod / 3600).toNat,
      (tod % 3600 / 60).toNat, (tod % 60).toNat, dt.micro⟩

/-- Fixed-width decimal fields of `strftime`.  `%Y` is modelled as
zero-padded to four digits (CPython's documented behaviour; some C
libraries do not pad years below 1000, a case the pipeline never meets). -/
def pad4 (n : Nat) : Str :=
  [digCh (n / 1000 % 10), digCh (n / 100 % 10), digCh (n / 10 % 10), digCh (n % 10)]

/-- Two-digit zero-padded field of `strftime`. -/
def pad2 (n : Nat) : Str := [digCh (n / 10 % 10), digCh (n % 10)]

/-- Model of `utc_dt.strftime('%Y-%m-%dT%H:%M:%SZ')`. -/
def formatUtc (dt : DT) : Str :=
  pad4 dt.year.toNat ++ ['-'] ++ pad2 dt.month ++ ['-'] ++ pad2 dt.day ++
  ['T'] ++ pad2 dt.hour ++ [':'] ++ pad2 dt.minute ++ [':'] ++ pad2 dt.second ++ ['Z']

/-- Model of `convert_to_utc` from `extract_gps.py`: replace `Z` by
`+00:00`, parse, convert to UTC and reformat; on any failure return the
input unchanged.  `localOff` is the local-timezone offset used by
`astimezone` when the parsed value carries no offset of its own. -/
def convert_to_utc (localOff : Int) (s : Str) : Str :=
  match fromisoformat (replaceZ s) with
  | none => s
  | some (dt, off) =>
    match toUtc dt ((off.getD localOff)) with
    | none => s
    | some u => formatUtc u

/-- Shape check for the fixed output format `YYYY-MM-DDTHH:MM:SSZ`. -/
def isFixedUtc : Str → Bool
  | [y1, y2, y3, y4, '-', a1, a2, '-', b1, b2, 'T', h1, h2, ':', m1, m2, ':', s1, s2, 'Z'] =>
    isDig y1 && isDig y2 && isDig y3 && isDig y4 && isDig a1 && isDig a2 &&
    isDig b1 && isDig b2 && isDig h1 && isDig h2 && isDig m1 && isDig m2 &&
    isDig s1 && isDig s2
  | _ => false

/-- Days preceding month `m` in the March-based year (the values of
Hinnant's `(153 * mp + 2) / 5` for `mp = (m + 9) % 12`). -/
def monthOffset : Nat → Int
  | 3 => 0 | 4 => 31 | 5 => 61 | 6 => 92 | 7 => 122 | 8 => 153
  | 9 => 184 | 10 => 214 | 11 => 245 | 12 => 275 | 1 => 306 | _ => 337

/-- Days since 1970-01-01 of a civil date: the standard Gregorian day
count `365 y + y/4 - y/100 + y/400 + (days before the month) + (d - 1)`
over the March-based year, normalised to the Unix epoch — the
specification-side linearisation of the calendar used to state that
conversion preserves the instant. -/
def civilToDays (y : Int) (m d : Nat) : Int :=
  let y' : Int := y - (if m ≤ 2 then 1 else 0)
  365 * y' + y' / 4 - y' / 100 + y' / 400 + monthOffset m + d - 1 - 719468

/-- Seconds since the epoch of a civil datetime read in UTC (fractional
seconds ignored, as the output format has second precision). -/
def epochSecs (dt : DT) : Int :=
  civilToDays dt.year dt.month dt.day * 86400 +
    dt.hour * 3600 + dt.minute * 60 + dt.second

/-! ## The extractor: model of `extract_gps_coordinates` -/

/-- The JSON value found in a signal's `altitude` field.  `vStr []` doubles
as the `''` default used when the field is absent.  JSON booleans, nulls,
arrays and objects in this slot are outside the model. -/
inductive PyVal
  | vInt (n : Int)
  | vFloat (x : Dec)
  | vStr (s : Str)
deriving DecidableEq

/-- A record of the `rawSignals` collection: the fields the program reads,
with `''` (empty string) standing for an absent field, as produced by the
`.get(..., '')` defaults.  `accuracyMeters` is read by the program but never
used, so it is not modelled. -/
structure Signal where
  latLng : Str
  timestamp : Str
  altitude : PyVal
deriving DecidableEq

/-- One point of a segment's `timelinePath`. -/
structure TPoint where
  point : Str
  time : Str
deriving DecidableEq

/-- A record of the `semanticSegments` collection. -/
structure Segment where
  timelinePath : List TPoint
deriving DecidableEq

/-- The parsed input document: its two optional top-level collections,
absent collections standing for `[]` via the `.get` defaults. -/
structure Document where
  rawSignals : List Signal
  semanticSegments : List Segment
deriving DecidableEq

/-- A coordinate entry as accumulated in the `coordinates` list. -/
structure Entry where
  datetime : Str
  latitude : Dec
  longitude : Dec
  altitude : Option PyNum
deriving DecidableEq

/-- The deduplication key `(coord['datetime'], coord['latitude'],
coord['longitude'])`. -/
def dedupKey (e : Entry) : Str × Dec × Dec :=
  (e.datetime, e.latitude, e.longitude)

/-- Model of `parse_latlng` from `extract_gps.py`: strip degree signs,
split on commas, strip and float-parse the first two fields; any failure
(missing comma, non-numeric field) yields no coordinate. -/
def parse_latlng (s : Str) : Option (Dec × Dec) :=
  let cleaned := stripWs (removeDeg s)
  match splitC cleaned with
  | p0 :: p1 :: _ =>
    match pyFloat (stripWs p0), pyFloat (stripWs p1) with
    | some lat, some lng => some (lat, lng)
    | _, _ => none
  | _ => none

/-- Altitude handling of the rawSignals loop: numbers pass through
unchanged (the `isinstance` check runs before truthiness), a nonempty
string has its first whitespace token float-parsed, anything else — absent
field, empty string, unparseable token — yields no altitude. -/
def parseAltitude : PyVal → Option PyNum
  | .vInt n => some (.int n)
  | .vFloat x => some (.float x)
  | .vStr s =>
    if s.isEmpty then none
    else
      match splitWs s with
      | [] => none
      | t :: _ => (pyFloat t).map .float

/-- One iteration of the rawSignals loop: the coordinate entry appended for
this signal, if any. -/
def processSignal (localOff : Int) (sig : Signal) : Option Entry :=
  if ¬sig.latLng.isEmpty ∧ ¬sig.timestamp.isEmpty then
    match parse_latlng sig.latLng with
    | some (lat, lng) =>
      some ⟨convert_to_utc localOff sig.timestamp, lat, lng, parseAltitude sig.altitude⟩
    | none => none
  else none

/-- One iteration of the inner timelinePath loop: altitude always empty. -/
def processPoint (localOff : Int) (p : TPoint) : Option Entry :=
  if ¬p.point.isEmpty ∧ ¬p.time.isEmpty then
    match parse_latlng p.point with
    | some (lat, lng) => some ⟨convert_to_utc localOff p.time, lat, lng, none⟩
    | none => none
  else none

/-- The `coordinates` list in traversal order: all rawSignals first, then
every segment's timelinePath points. -/
def rawEntries (localOff : Int) (doc : Document) : List Entry :=
  doc.rawSignals.filterMap (processSignal localOff) ++
    doc.semanticSegments.flatMap (fun seg => seg.timelinePath.filterMap (processPoint localOff))

/-- Model of the dedup loop: keep an entry iff its key has not been seen;
`seen` is modelled as the list of keys inserted so far (set membership is
what the loop tests). -/
def dedupAux (seen : List (Str × Dec × Dec)) : List Entry → List Entry
  | [] => []
  | e :: es =>
    if dedupKey e ∈ seen then dedupAux seen es
    else e :: dedupAux (dedupKey e :: seen) es

/-- `unique_coordinates` before sorting. -/
def dedup (l : List Entry) : List Entry := dedupAux [] l

/-- Stable insertion of an entry in front of the first element its datetime
key is `<=`: inserting earlier-traversed elements into the sorted rest
reproduces exactly the output of Python's stable `list.sort(key=...)`. -/
def insertE (e : Entry) : List Entry → List Entry
  | [] => [e]
  | x :: xs => if strLe e.datetime x.datetime then e :: x :: xs else x :: insertE e xs

/-- Stable sort by the `datetime` string, the model of
`unique_coordinates.sort(key=lambda x: x['datetime'])`. -/
def sortE : List Entry → List Entry
  | [] => []
  | e :: es => insertE e (sortE es)

/-- Model of `extract_gps_coordinates` on a parsed document: the list of
unique coordinates, sorted, exactly as written to the CSV (the function's
return value is this list's length). -/
def extract_gps_coordinates (localOff : Int) (doc : Document) : List Entry :=
  sortE (dedup (rawEntries localOff doc))

/-- The text of the altitude CSV field. -/
def altText : Option PyNum → Str
  | none => []
  | some n => pyNumStr n

/-- The four CSV field texts of an entry, as `csv.DictWriter` receives them. -/
def entryFields (e : Entry) : List Str :=
  [e.datetime, floatRepr e.latitude, floatRepr e.longitude, altText e.altitude]

/-- CSV field quoting (`QUOTE_MINIMAL`): quote only fields containing the
delimiter, the quote char or a line break, doubling inner quotes. -/
def csvField (f : Str) : Str :=
  if f.any (fun c => c == ',' || c == '"' || c == '\r' || c == '\n') then
    '"' :: f.flatMap (fun c => if c = '"' then ['"', '"'] else [c]) ++ ['"']
  else f

/-- One CSV line (without the line terminator). -/
def csvLine (fields : List Str) : Str :=
  (List.intersperse [','] (fields.map csvField)).flatten

/-- The data rows of the written CSV, in file order. -/
def csvDataLines (localOff : Int) (doc : Document) : List Str :=
  (extract_gps_coordinates localOff doc).map (fun e => csvLine (entryFields e))

/-- The full CSV: header line then data rows. -/
def csvLines (localOff : Int) (doc : Document) : List Str :=
  ("datetime,latitude,longitude,altitude").toList :: csvDataLines localOff doc

/-- What the extractor process is given: a missing file, a file whose
contents fail to parse as JSON, or a parsed document. -/
inductive ExtractorInput
  | missingFile
  | invalidJson
  | parsed (doc : Document)

/-- Model of running `extract_gps.py` as a script: the process exit status
and the CSV written, if any.  A missing file prints an error and exits 1
before any extraction; a JSON parse error is caught inside
`extract_gps_coordinates`, which prints and returns 0, after which the
script ends normally (exit status 0); otherwise the CSV is written and the
script likewise exits 0. -/
def extractorMain (localOff : Int) : ExtractorInput → Nat × Option (List Str)
  | .missingFile => (1, none)
  | .invalidJson => (0, none)
  | .parsed doc => (0, some (csvLines localOff doc))

/-! ## The generator: model of `generate_inserts.py` -/

/-- A CSV row as `csv.DictReader` hands it to the generator: the four field
texts.  (CSV quoting round-trips through write and read, so the extractor's
field texts arrive unchanged.) -/
structure CsvRow where
  datetime : Str
  latitude : Str
  longitude : Str
  altitude : Str
deriving DecidableEq

/-- The extractor row corresponding to an entry. -/
def toCsvRow (e : Entry) : CsvRow :=
  ⟨e.datetime, floatRepr e.latitude, floatRepr e.longitude, altText e.altitude⟩

/-- Model of Python `repr` on a string (the `{datetime_utc!r}` in the batch
tuples): quote choice and escaping of quotes, backslashes and the common
control characters; escaping of other non-printable characters is not
modelled (the pipeline's datetimes contain none). -/
def pyReprQuote (s : Str) : Char :=
  if '\'' ∈ s ∧ ¬ ('"' ∈ s) then '"' else '\''

def pyReprEsc (q c : Char) : Str :=
  if c = '\\' then ['\\', '\\']
  else if c = q then ['\\', q]
  else if c = '\n' then ['\\', 'n']
  else if c = '\r' then ['\\', 'r']
  else if c = '\t' then ['\\', 't']
  else [c]

def pyRepr (s : Str) : Str :=
  let q := pyReprQuote s
  q :: s.flatMap (pyReprEsc q) ++ [q]

/-- The altitude SQL text: the generator maps an empty (or literal `NULL`)
altitude field to the SQL `NULL` literal and inlines anything else
verbatim, unquoted. -/
def altClause (alt : Str) : Str :=
  if alt.isEmpty then ("NULL").toList else if alt = ("NULL").toList then ("NULL").toList else alt

/-- The datetime text after the generator's quote-doubling. -/
def escQuotes (s : Str) : Str :=
  s.flatMap (fun c => if c = '\'' then ['\'', '\''] else [c])

/-- Model of one Mode-A statement: the f-string of `generate_inserts`. -/
def tupleA (row : CsvRow) : Str :=
  let dtc := replaceZ (escQuotes row.datetime)
  ("INSERT INTO GPS_COORDINATES (datetime_utc, latitude, longitude, altitude_meters) VALUES (TO_TIMESTAMP_TZ('").toList ++
  dtc ++ ("', 'YYYY-MM-DD\"T\"HH24:MI:SSTZH:TZM'), ").toList ++
  row.latitude ++ (", ").toList ++ row.longitude ++ (", ").toList ++
  altClause row.altitude ++ (");").toList

/-- Model of one Mode-B value tuple: the f-string of `generate_batch_inserts`. -/
def tupleB (row : CsvRow) : Str :=
  let dte := escQuotes row.datetime
  ('(' :: pyRepr dte) ++ (", ").toList ++ row.latitude ++ (", ").toList ++
  row.longitude ++ (", ").toList ++ altClause row.altitude ++ [')']

/-- Model of `generate_inserts` (Mode A): the statement list and the
function's return value `len(inserts)`. -/
def generate_inserts (rows : List CsvRow) : List Str × Nat :=
  (rows.map tupleA, rows.length)

/-- The batching loop of `generate_batch_inserts`: append each element to
the current batch, flushing whenever the batch reaches `b` elements, and
flush the nonempty remainder at the end. -/
def batchLoop (b : Nat) : List Str → List (List Str) → List Str → List (List Str)
  | [], inserts, batch => if batch.isEmpty then inserts else inserts ++ [batch]
  | r :: rs, inserts, batch =>
    let batch' := batch ++ [r]
    if b ≤ batch'.length then batchLoop b rs (inserts ++ [batch']) []
    else batchLoop b rs inserts batch'

/-- Model of `generate_batch_inserts` (Mode B): the batches of rendered
value tuples and the function's return value `row_count`. -/
def generate_batch_inserts (b : Nat) (rows : List CsvRow) : List (List Str) × Nat :=
  (batchLoop b (rows.map tupleB) [] [], rows.length)

/-- Spec-side recovery parse shared by both modes: the last three
comma-separated fields of a value tuple, each stripped of the single space
the f-strings put after the comma, the last also stripped of the closing
`suffix`. -/
def dropOneSpace : Str → Str
  | ' ' :: r => r
  | s => s

def removeSuffix (suf s : Str) : Option Str :=
  if suf.reverse.isPrefixOf s.reverse then some (s.take (s.length - suf.length)) else none

def lastThree (l : List Str) : Option (Str × Str × Str) :=
  match l.reverse with
  | c :: b :: a :: _ => some (a, b, c)
  | _ => none

/-- Recover `(latitude, longitude, altitude clause)` from a rendered value
tuple that ends in `suffix`. -/
def recoverTuple (suffix s : Str) : Option (Str × Str × Str) :=
  match lastThree (splitC s) with
  | some (a, b, c) => do
    let alt ← removeSuffix suffix (dropOneSpace c)
    pure (dropOneSpace a, dropOneSpace b, alt)
  | none => none

/-- The order used on entries. -/
def dtLe (a b : Entry) : Prop := strLe a.datetime b.datetime = true

/-- The character classes of a numeric token: digits, signs and the dot. -/
def tokChar (c : Char) : Bool :=
  isDig c || c == '+' || c == '-' || c == '.'

/-- A string of whitespace only. -/
def allWs (w : Str) : Prop := ∀ c ∈ w, isWs c = true

/-- A nonempty token of numeric characters. -/
def numTok (t : Str) : Prop := t ≠ [] ∧ ∀ c ∈ t, tokChar c = true

instance (w : Str) : Decidable (allWs w) := by unfold allWs; infer_instance

instance (t : Str) : Decidable (numTok t) := by unfold numTok; infer_instance

/-- Validity of a civil date, as the `datetime` constructor checks it. -/
def validDate (y : Int) (m d : Nat) : Prop :=
  1 ≤ m ∧ m ≤ 12 ∧ 1 ≤ d ∧ d ≤ daysInMonth y m

example : stripWs (("  a b ").toList) = ('a' :: ' ' :: ['b']) := by decide

example : splitC (("a,b,").toList) = [['a'], ['b'], []] := by decide

example : pyFloat (("  -97.00 ").toList) = some ⟨-97, 0⟩ := by decide

example : pyFloat (("49.90").toList) = some ⟨499, 1⟩ := by decide

example : pyFloat (("4 9").toList) = none := by decide

example : pyFloat (("0.050").toList) = some ⟨5, 2⟩ := by decide

example : floatRepr ⟨499, 1⟩ = ("49.9").toList := by decide

example : floatRepr ⟨-97, 0⟩ = ("-97.0").toList := by decide

example : floatRepr ⟨5, 2⟩ = ("0.05").toList := by decide

example : pyNumStr (.int 0) = ['0'] := by decide

example : strLe (("2024a").toList) (("2024b").toList) = true := by decide

example : civilToDays 1970 1 1 = 0 := by decide

example : civilToDays 2000 3 1 = 11017 := by decide

example : fromisoformat (("2024-01-01T10:00:00-06:00").toList) =
    some (⟨2024, 1, 1, 10, 0, 0, 0⟩, some (-21600)) := by decide

example : fromisoformat (replaceZ (("2024-01-01T10:00:00Z").toList)) =
    some (⟨2024, 1, 1, 10, 0, 0, 0⟩, some 0) := by decide

example : convert_to_utc 0 (("2024-01-01T10:00:00-06:00").toList) =
    ("2024-01-01T16:00:00Z").toList := by decide

example : convert_to_utc 0 (("2024-12-31T23:30:00-01:00").toList) =
    ("2025-01-01T00:30:00Z").toList := by decide

example : convert_to_utc 0 (("2024-03-01T00:30:00+02:00").toList) =
    ("2024-02-29T22:30:00Z").toList := by decide

example : convert_to_utc 0 (("9999-12-31T23:00:00-02:00").toList) =
    ("9999-12-31T23:00:00-02:00").toList := by decide

example : convert_to_utc 0 (("not a timestamp").toList) =
    ("not a timestamp").toList := by decide

example : convert_to_utc (-18000) (("2024-01-01T10:00:00").toList) =
    ("2024-01-01T15:00:00Z").toList := by decide

example : parse_latlng ((" 49.9 °,  -97.0° ").toList) = some (⟨499, 1⟩, ⟨-97, 0⟩) := by decide

example : parse_latlng (("49.9033985°, -97.0022461°").toList) =
    some (⟨499033985, 7⟩, ⟨-970022461, 7⟩) := by decide

example : parse_latlng (("49.9").toList) = none := by decide

example : parse_latlng ([]) = none := by decide

example : parse_latlng (("a,b").toList) = none := by decide

example : parse_latlng (("1.0,2.0,junk,,").toList) = some (⟨1, 0⟩, ⟨2, 0⟩) := by decide

example : parseAltitude (.vStr (("232.69999999999999 m").toList)) =
    some (.float ⟨23269999999999999, 14⟩) := by decide

example : parseAltitude (.vStr (("  ").toList)) = none := by decide

example : parseAltitude (.vInt 0) = some (.int 0) := by decide

example :
    recoverTuple ((");").toList)
      (tupleA ⟨("2024-01-01T16:00:00Z").toList, ("49.9").toList, ("-97.0").toList, []⟩) =
    some (("49.9").toList, ("-97.0").toList, ("NULL").toList) := by decide

example :
    recoverTuple (([')']))
      (tupleB ⟨("2024-01-01T16:00:00Z").toList, ("49.9").toList, ("-97.0").toList, ("232.7").toList⟩) =
    some (("49.9").toList, ("-97.0").toList, ("232.7").toList) := by decide

example : (generate_batch_inserts 2 [⟨[],[],[],[]⟩,⟨[],[],[],[]⟩,⟨[],[],[],[]⟩,⟨[],[],[],[]⟩,⟨[],[],[],[]⟩]).1.map List.length = [2, 2, 1] := by decide

/-! ## Lemmas: lexicographic order and the stable sort -/

theorem strLe_refl (s : Str) : strLe s s = true := by
  induction s with
  | nil => rfl
  | cons a as ih => simp [strLe, ih]

theorem strLe_head {x y : Char} {xs ys : Str} (h : strLe (x :: xs) (y :: ys) = true) :
    x.toNat ≤ y.toNat := by
  simp only [strLe] at h
  split_ifs at h with h1 h2 <;> omega

theorem strLe_rest {x y : Char} {xs ys : Str} (h : strLe (x :: xs) (y :: ys) = true)
    (hxy : ¬x.toNat < y.toNat) : strLe xs ys = true := by
  simp only [strLe] at h
  split_ifs at h with h1
  exact h

theorem strLe_total (a b : Str) : strLe a b = true ∨ strLe b a = true := by
  induction a generalizing b with
  | nil => exact Or.inl rfl
  | cons x xs ih =>
    cases b with
    | nil => exact Or.inr rfl
    | cons y ys =>
      by_cases h1 : x.toNat < y.toNat
      · exact Or.inl (by simp [strLe, h1])
      · by_cases h2 : y.toNat < x.toNat
        · exact Or.inr (by simp [strLe, h2, show ¬y.toNat < x.toNat → False from fun h => h h2])
        · rcases ih ys with h | h
          · exact Or.inl (by simp [strLe, h1, h2, h])
          · exact Or.inr (by simp [strLe, h1, h2, h])

theorem strLe_trans {a b c : Str} (hab : strLe a b = true) (hbc : strLe b c = true) :
    strLe a c = true := by
  induction a generalizing b c with
  | nil => rfl
  | cons x xs ih =>
    cases b with
    | nil => simp [strLe] at hab
    | cons y ys =>
      cases c with
      | nil => simp [strLe] at hbc
      | cons z zs =>
        have hxy := strLe_head hab
        have hyz := strLe_head hbc
        simp only [strLe]
        by_cases hxz : x.toNat < z.toNat
        · simp [hxz]
        · have hzx : ¬z.toNat < x.toNat := by omega
          simp only [hxz, hzx, if_false]
          exact ih (strLe_rest hab (by omega)) (strLe_rest hbc (by omega))

theorem mem_insertE {b e : Entry} {l : List Entry} :
    b ∈ insertE e l ↔ b = e ∨ b ∈ l := by
  induction l with
  | nil => simp [insertE]
  | cons x xs ih =>
    simp only [insertE]
    split_ifs with hle
    · simp [List.mem_cons]
    · simp only [List.mem_cons, ih]
      tauto

theorem insertE_pairwise {e : Entry} {l : List Entry} (h : l.Pairwise dtLe) :
    (insertE e l).Pairwise dtLe := by
  induction l with
  | nil => simp [insertE, List.pairwise_cons]
  | cons x xs ih =>
    rw [List.pairwise_cons] at h
    obtain ⟨hx, hxs⟩ := h
    simp only [insertE]
    split_ifs with hle
    · rw [List.pairwise_cons]
      refine ⟨?_, by rw [List.pairwise_cons]; exact ⟨hx, hxs⟩⟩
      intro b hb
      rcases List.mem_cons.mp hb with rfl | hbmem
      · exact hle
      · exact strLe_trans hle (hx b hbmem)
    · rw [List.pairwise_cons]
      refine ⟨?_, ih hxs⟩
      intro b hb
      rcases mem_insertE.mp hb with rfl | hbmem
      · rcases strLe_total b.datetime x.datetime with h | h
        · exact absurd h hle
        · exact h
      · exact hx b hbmem

theorem insertE_perm (e : Entry) (l : List Entry) : List.Perm (insertE e l) (e :: l) := by
  induction l with
  | nil => exact List.Perm.refl _
  | cons x xs ih =>
    simp only [insertE]
    split_ifs with hle
    · exact List.Perm.refl _
    · exact (ih.cons x).trans (List.Perm.swap e x xs)

theorem sortE_perm (l : List Entry) : List.Perm (sortE l) l := by
  induction l with
  | nil => exact List.Perm.refl _
  | cons e es ih => exact (insertE_perm e (sortE es)).trans (ih.cons e)

theorem sortE_pairwise (l : List Entry) : (sortE l).Pairwise dtLe := by
  induction l with
  | nil => simp [sortE]
  | cons e es ih => exact insertE_pairwise ih

theorem insertE_filter (d : Str) (e : Entry) (l : List Entry) :
    (insertE e l).filter (fun x => x.datetime == d) =
      if e.datetime == d then e :: l.filter (fun x => x.datetime == d)
      else l.filter (fun x => x.datetime == d) := by
  induction l with
  | nil =>
    by_cases hd : (e.datetime == d) = true <;>
      simp [insertE, List.filter_cons, hd]
  | cons x xs ih =>
    simp only [insertE]
    by_cases hle : strLe e.datetime x.datetime = true
    · rw [if_pos hle]
      simp only [List.filter_cons]
    · rw [if_neg hle]
      simp only [List.filter_cons, ih]
      by_cases hd : (e.datetime == d) = true
      · have hx : (x.datetime == d) = false := by
          rw [beq_iff_eq] at hd
          by_contra hxc
          rw [Bool.not_eq_false, beq_iff_eq] at hxc
          exact hle (by rw [hd, hxc]; exact strLe_refl d)
        simp [hd, hx]
      · simp [hd]

theorem sortE_filter (d : Str) (l : List Entry) :
    (sortE l).filter (fun x => x.datetime == d) = l.filter (fun x => x.datetime == d) := by
  induction l with
  | nil => rfl
  | cons e es ih =>
    simp only [sortE, insertE_filter, List.filter_cons, ih]

/-! ## Lemmas: deduplication -/

theorem dedupAux_key_notin {seen : List (Str × Dec × Dec)} {l : List Entry} :
    ∀ e ∈ dedupAux seen l, dedupKey e ∉ seen := by
  induction l generalizing seen with
  | nil => simp [dedupAux]
  | cons x xs ih =>
    simp only [dedupAux]
    split_ifs with hmem
    · exact ih
    · intro e he
      rcases List.mem_cons.mp he with rfl | hrest
      · exact hmem
      · have := ih e hrest
        intro hseen
        exact this (List.mem_cons_of_mem _ hseen)

theorem dedupAux_pairwise (seen : List (Str × Dec × Dec)) (l : List Entry) :
    (dedupAux seen l).Pairwise (fun a b => dedupKey a ≠ dedupKey b) := by
  induction l generalizing seen with
  | nil => simp [dedupAux]
  | cons x xs ih =>
    simp only [dedupAux]
    split_ifs with hmem
    · exact ih seen
    · rw [List.pairwise_cons]
      refine ⟨?_, ih _⟩
      intro b hb hkey
      exact dedupAux_key_notin b hb (by rw [← hkey]; exact List.mem_cons_self _ _)

theorem dedupAux_mem {seen : List (Str × Dec × Dec)} {l : List Entry} {e : Entry} :
    e ∈ dedupAux seen l ↔
      dedupKey e ∉ seen ∧ l.find? (fun x => dedupKey x == dedupKey e) = some e := by
  induction l generalizing seen with
  | nil => simp [dedupAux]
  | cons x xs ih =>
    simp only [dedupAux, List.find?]
    by_cases hk : (dedupKey x == dedupKey e) = true
    · have hkey : dedupKey x = dedupKey e := beq_iff_eq.mp hk
      rw [hk]
      split_ifs with hmem
      · rw [ih]
        constructor
        · rintro ⟨hnot, _⟩
          exact absurd (hkey ▸ hmem) hnot
        · rintro ⟨hnot, _⟩
          exact absurd (hkey ▸ hmem) hnot
      · constructor
        · intro he
          rcases List.mem_cons.mp he with rfl | hrest
          · exact ⟨hmem, rfl⟩
          · have hnotmem := (ih.mp hrest).1
            exact absurd (List.mem_cons_self _ _) (hkey ▸ hnotmem)
        · rintro ⟨_, hfind⟩
          have hxe : x = e := by simpa using hfind
          exact hxe ▸ List.mem_cons_self _ _
    · rw [Bool.not_eq_true] at hk
      have hkey : dedupKey x ≠ dedupKey e := by simpa using hk
      rw [hk]
      split_ifs with hmem
    
      · exact ih
      · constructor
        · intro he
          rcases List.mem_cons.mp he with rfl | hrest
          · exact absurd rfl hkey
          · obtain ⟨hnot, hfind⟩ := ih.mp hrest
            exact ⟨fun hseen => hnot (List.mem_cons_of_mem _ hseen), hfind⟩
        · rintro ⟨hnot, hfind⟩
          refine List.mem_cons_of_mem _ (ih.mpr ⟨?_, hfind⟩)
          intro hm
          rcases List.mem_cons.mp hm with hkeyEq | hseen
          · exact hkey hkeyEq.symm
          · exact hnot hseen

/-! ## Claims C1 and C2 -/

/-- C1: for every input document, `(datetime, latitude, longitude)` is a
dedup key of the extractor's output — no two output entries share all three
fields — and an entry is in the output exactly when it is the first entry
carrying its key in traversal order; duplicates are dropped regardless of
differing altitudes, since the key ignores the altitude. -/
theorem extract_dedup_key_unique (localOff : Int) (doc : Document) :
    ((extract_gps_coordinates localOff doc).Pairwise fun a b => dedupKey a ≠ dedupKey b) ∧
    (∀ e : Entry, e ∈ extract_gps_coordinates localOff doc ↔
      (rawEntries localOff doc).find? (fun x => dedupKey x == dedupKey e) = some e) := by
  constructor
  · have hperm := sortE_perm (dedup (rawEntries localOff doc))
    have hpw := dedupAux_pairwise [] (rawEntries localOff doc)
    exact (hperm.pairwise_iff (fun h => Ne.symm h)).mpr hpw
  · intro e
    rw [extract_gps_coordinates, (sortE_perm _).mem_iff, dedup, dedupAux_mem]
    simp

/-- Witness for C1 at a concrete document: two raw signals with the same
coordinates and timestamp but different altitudes; the first survives, the
second does not. -/
theorem extract_dedup_key_unique_witness :
    ((⟨['t'], ⟨1, 0⟩, ⟨2, 0⟩, some (.int 5)⟩ : Entry) ∈
      extract_gps_coordinates 0
        ⟨[⟨("1.0,2.0").toList, ['t'], .vInt 5⟩, ⟨("1.0,2.0").toList, ['t'], .vInt 9⟩], []⟩) ∧
    ¬((⟨['t'], ⟨1, 0⟩, ⟨2, 0⟩, some (.int 9)⟩ : Entry) ∈
      extract_gps_coordinates 0
        ⟨[⟨("1.0,2.0").toList, ['t'], .vInt 5⟩, ⟨("1.0,2.0").toList, ['t'], .vInt 9⟩], []⟩) := by
  have h := extract_dedup_key_unique 0
    ⟨[⟨("1.0,2.0").toList, ['t'], .vInt 5⟩, ⟨("1.0,2.0").toList, ['t'], .vInt 9⟩], []⟩
  constructor
  · exact (h.2 _).mpr (by decide)
  · intro hmem
    have hfind := (h.2 _).mp hmem
    revert hfind
    decide

/-- C2: for every input document, the output entries are non-decreasing in
the `datetime` string under code-point lexicographic comparison, and the
sort is stable: for each datetime value the output entries carrying it are
exactly the deduplicated entries carrying it, in first-seen traversal
order. -/
theorem extract_sorted_stable (localOff : Int) (doc : Document) :
    ((extract_gps_coordinates localOff doc).Pairwise fun a b =>
      strLe a.datetime b.datetime = true) ∧
    (∀ d : Str, (extract_gps_coordinates localOff doc).filter (fun e => e.datetime == d) =
      (dedup (rawEntries localOff doc)).filter (fun e => e.datetime == d)) :=
  ⟨sortE_pairwise _, fun d => sortE_filter d _⟩

/-- Witness for C2 at a concrete document: two signals arrive with
descending timestamps and a third ties the first; the output is sorted and
the tie keeps first-seen order. -/
theorem extract_sorted_stable_witness :
    ((extract_gps_coordinates 0
      ⟨[⟨("1.0,2.0").toList, ['b'], .vStr []⟩, ⟨("3.0,4.0").toList, ['a'], .vStr []⟩,
        ⟨("5.0,6.0").toList, ['b'], .vStr []⟩], []⟩).Pairwise fun a b =>
      strLe a.datetime b.datetime = true) ∧
    (extract_gps_coordinates 0
      ⟨[⟨("1.0,2.0").toList, ['b'], .vStr []⟩, ⟨("3.0,4.0").toList, ['a'], .vStr []⟩,
        ⟨("5.0,6.0").toList, ['b'], .vStr []⟩], []⟩).filter (fun e => e.datetime == ['b']) =
      [⟨['b'], ⟨1, 0⟩, ⟨2, 0⟩, none⟩, ⟨['b'], ⟨5, 0⟩, ⟨6, 0⟩, none⟩] := by
  have h := extract_sorted_stable 0
    ⟨[⟨("1.0,2.0").toList, ['b'], .vStr []⟩, ⟨("3.0,4.0").toList, ['a'], .vStr []⟩,
      ⟨("5.0,6.0").toList, ['b'], .vStr []⟩], []⟩
  refine ⟨h.1, ?_⟩
  rw [h.2 ['b']]
  decide

/-! ## Claims C5, C8 and C10 -/

/-- C5 counterexample: on a present but invalid-JSON input the process
writes no CSV, as claimed, but its exit status is 0, not non-zero:
`extract_gps_coordinates` catches the `JSONDecodeError`, prints and returns
0, and the script then ends normally — only a missing file reaches
`sys.exit(1)`. -/
theorem extractor_invalid_json_exit_zero :
    (extractorMain 0 ExtractorInput.invalidJson).1 = 0 ∧
    (extractorMain 0 ExtractorInput.invalidJson).2 = none :=
  ⟨rfl, rfl⟩

/-- C5 (amended): if the input document exists but fails to parse as JSON,
the extractor writes no output CSV and returns count 0, but the process
exits with status 0; only a missing input file aborts with a non-zero exit
status. -/
theorem extractor_error_modes (localOff : Int) :
    extractorMain localOff ExtractorInput.invalidJson = (0, none) ∧
    (extractorMain localOff ExtractorInput.missingFile).1 = 1 ∧
    (extractorMain localOff ExtractorInput.missingFile).2 = none :=
  ⟨rfl, rfl, rfl⟩

/-- Witness for C5 at the concrete local offset 0. -/
theorem extractor_error_modes_witness :
    extractorMain 0 ExtractorInput.invalidJson = (0, none) :=
  (extractor_error_modes 0).1

/-- If parsing fails, `convert_to_utc` returns its input unchanged. -/
theorem convert_to_utc_noparse {s : Str} (localOff : Int)
    (hp : fromisoformat (replaceZ s) = none) : convert_to_utc localOff s = s := by
  unfold convert_to_utc
  split
  · rfl
  · next dt2 off2 heq => rw [hp] at heq; exact Option.noConfusion heq

/-- On an offset-aware parse whose conversion succeeds, `convert_to_utc`
formats the converted value; the local offset is never consulted. -/
theorem convert_to_utc_aware {s : Str} {dt : DT} {off : Int} {u : DT} (localOff : Int)
    (hp : fromisoformat (replaceZ s) = some (dt, some off)) (ht : toUtc dt off = some u) :
    convert_to_utc localOff s = formatUtc u := by
  unfold convert_to_utc
  split
  · next heq => rw [hp] at heq; exact Option.noConfusion heq
  · next dt2 off2 heq =>
    rw [hp] at heq
    injection heq with heq2
    injection heq2 with hdt hoff
    subst hdt
    subst hoff
    rw [Option.getD_some]
    split
    · next heq2 => rw [ht] at heq2; exact Option.noConfusion heq2
    · next u2 heq2 =>
      rw [ht] at heq2
      injection heq2 with hu
      subst hu
      rfl

/-- On an offset-aware parse whose conversion overflows the representable
years, `convert_to_utc` returns its input unchanged. -/
theorem convert_to_utc_overflow {s : Str} {dt : DT} {off : Int} (localOff : Int)
    (hp : fromisoformat (replaceZ s) = some (dt, some off)) (ht : toUtc dt off = none) :
    convert_to_utc localOff s = s := by
  unfold convert_to_utc
  split
  · rfl
  · next dt2 off2 heq =>
    rw [hp] at heq
    injection heq with heq2
    injection heq2 with hdt hoff
    subst hdt
    subst hoff
    rw [Option.getD_some]
    split
    · rfl
    · next u2 heq2 => rw [ht] at heq2; exact Option.noConfusion heq2

/-- A raw signal with nonempty fields and a parseable coordinate yields its
entry. -/
theorem processSignal_eq (localOff : Int) (lg ts : Str) (alt : PyVal) {lat lng : Dec}
    (h1 : lg.isEmpty = false) (h2 : ts.isEmpty = false)
    (h3 : parse_latlng lg = some (lat, lng)) :
    processSignal localOff ⟨lg, ts, alt⟩ =
      some ⟨convert_to_utc localOff ts, lat, lng, parseAltitude alt⟩ := by
  unfold processSignal
  rw [if_pos ⟨by simp [h1], by simp [h2]⟩, h3]

/-- C8: on the spec's example document — one raw signal, `LatLng`
`"49.90°, -97.00°"`, timestamp `2024-01-01T10:00:00-06:00`, no altitude —
the extractor writes exactly one CSV data row,
`2024-01-01T16:00:00Z,49.9,-97.0,` (UTC-shifted timestamp, empty
altitude), whatever the local timezone. -/
theorem extractor_spec_example (localOff : Int) :
    csvDataLines localOff
      ⟨[⟨("49.90°, -97.00°").toList, ("2024-01-01T10:00:00-06:00").toList, .vStr []⟩], []⟩ =
    [("2024-01-01T16:00:00Z,49.9,-97.0,").toList] := by
  have hconv : convert_to_utc localOff (("2024-01-01T10:00:00-06:00").toList) =
      ("2024-01-01T16:00:00Z").toList := by
    rw [convert_to_utc_aware localOff
      (show fromisoformat (replaceZ (("2024-01-01T10:00:00-06:00").toList)) =
        some (⟨2024, 1, 1, 10, 0, 0, 0⟩, some (-21600)) from by decide)
      (show toUtc ⟨2024, 1, 1, 10, 0, 0, 0⟩ (-21600) = some ⟨2024, 1, 1, 16, 0, 0, 0⟩ from by
        decide)]
    decide
  have hps := processSignal_eq localOff (("49.90°, -97.00°").toList)
    (("2024-01-01T10:00:00-06:00").toList) (.vStr [])
    (by decide) (by decide)
    (show parse_latlng (("49.90°, -97.00°").toList) = some (⟨499, 1⟩, ⟨-97, 0⟩) from by decide)
  rw [hconv] at hps
  have hfm : ([] : List Segment).flatMap
      (fun seg => List.filterMap (processPoint localOff) seg.timelinePath) = [] := rfl
  simp only [csvDataLines, extract_gps_coordinates, rawEntries, List.filterMap_cons,
    List.filterMap_nil, hps, hfm, List.append_nil]
  decide

/-- Witness for C8 at the concrete local offset 0. -/
theorem extractor_spec_example_witness :
    csvDataLines 0
      ⟨[⟨("49.90°, -97.00°").toList, ("2024-01-01T10:00:00-06:00").toList, .vStr []⟩], []⟩ =
    [("2024-01-01T16:00:00Z,49.9,-97.0,").toList] :=
  extractor_spec_example 0

/-- The CSV altitude field of a number is never empty (an integer or float
always prints at least one digit). -/
theorem pyNumStr_ne_nil (n : PyNum) : pyNumStr n ≠ [] := by
  have htd : ∀ m : Nat, toDec m ≠ [] := by
    intro m
    unfold toDec toDecAux
    split <;> simp
  cases n with
  | int m =>
    simp only [pyNumStr]
    intro hcontra
    rcases List.append_eq_nil.mp hcontra with ⟨_, h2⟩
    exact htd _ h2
  | float x =>
    simp only [pyNumStr, floatRepr]
    intro hcontra
    rcases List.append_eq_nil.mp hcontra with ⟨h1, _⟩
    rcases List.append_eq_nil.mp h1 with ⟨h3, h4⟩
    simp at h4

/-- A processed signal stores exactly the parsed altitude. -/
theorem processSignal_altitude {localOff : Int} {sig : Signal} {e : Entry}
    (h : processSignal localOff sig = some e) :
    e.altitude = parseAltitude sig.altitude := by
  unfold processSignal at h
  split at h
  · split at h
    · next lat lng _ =>
      injection h with h2
      rw [← h2]
    · exact Option.noConfusion h
  · exact Option.noConfusion h

/-- C10: a raw signal whose altitude is the number `0` (integer or float)
produces an entry with altitude `0` — printed `0` or `0.0`, not empty —
because the `isinstance` numeric check runs before the truthiness test;
and in general a processed signal's altitude field is empty exactly when
the altitude failed to parse (absent, empty, or unparseable). -/
theorem altitude_zero_kept :
    (∀ n : Int, parseAltitude (.vInt n) = some (.int n)) ∧
    (∀ x : Dec, parseAltitude (.vFloat x) = some (.float x)) ∧
    (∀ (localOff : Int) (sig : Signal) (e : Entry), processSignal localOff sig = some e →
      (altText e.altitude = [] ↔ parseAltitude sig.altitude = none)) ∧
    (∀ (localOff : Int) (sig : Signal) (e : Entry), processSignal localOff sig = some e →
      sig.altitude = .vInt 0 → altText e.altitude = ['0']) ∧
    (∀ (localOff : Int) (sig : Signal) (e : Entry), processSignal localOff sig = some e →
      sig.altitude = .vFloat ⟨0, 0⟩ → altText e.altitude = ("0.0").toList) := by
  refine ⟨fun n => rfl, fun x => rfl, ?_, ?_, ?_⟩
  · intro localOff sig e h
    rw [processSignal_altitude h]
    cases halt : parseAltitude sig.altitude with
    | none => simp [altText]
    | some n => simp [altText, pyNumStr_ne_nil n]
  · intro localOff sig e h halt
    rw [processSignal_altitude h, halt]
    decide
  · intro localOff sig e h halt
    rw [processSignal_altitude h, halt]
    decide

/-- Witness for C10: a concrete signal with integer altitude 0 yields the
altitude field `0`. -/
theorem altitude_zero_kept_witness :
    altText
      (Entry.altitude ⟨['t'], ⟨1, 0⟩, ⟨2, 0⟩, some (.int 0)⟩) = ['0'] ∧
    (processSignal 0 ⟨("1.0,2.0").toList, ['t'], .vInt 0⟩ =
      some ⟨['t'], ⟨1, 0⟩, ⟨2, 0⟩, some (.int 0)⟩) :=
  ⟨altitude_zero_kept.2.2.2.1 0 ⟨("1.0,2.0").toList, ['t'], .vInt 0⟩
      ⟨['t'], ⟨1, 0⟩, ⟨2, 0⟩, some (.int 0)⟩ (by decide) rfl,
    by decide⟩

/-! ## Lemmas: the batching loop (claim C6) -/

theorem batchLoop_acc (b : Nat) (l : List Str) (acc : List (List Str)) (cur : List Str) :
    batchLoop b l acc cur = acc ++ batchLoop b l [] cur := by
  induction l generalizing acc cur with
  | nil =>
    simp only [batchLoop]
    split_ifs <;> simp
  | cons r rs ih =>
    simp only [batchLoop]
    split_ifs with h
    · rw [ih (acc ++ [cur ++ [r]]) [], ih ([] ++ [cur ++ [r]]) []]
      simp
    · rw [ih acc (cur ++ [r])]

theorem batchLoop_flatten (b : Nat) (l : List Str) (acc : List (List Str)) (cur : List Str) :
    (batchLoop b l acc cur).flatten = acc.flatten ++ cur ++ l := by
  induction l generalizing acc cur with
  | nil =>
    simp only [batchLoop]
    split_ifs with h
    · simp [List.isEmpty_iff.mp h]
    · simp
  | cons r rs ih =>
    simp only [batchLoop]
    split_ifs with h
    · rw [ih]
      simp
    · rw [ih]
      simp

theorem batchLoop_lengths (b : Nat) (hb : 1 ≤ b) (l : List Str) :
    ∀ cur : List Str, cur.length < b →
      (batchLoop b l [] cur).map List.length =
        List.replicate ((cur.length + l.length) / b) b ++
          (if (cur.length + l.length) % b = 0 then []
           else [(cur.length + l.length) % b]) := by
  induction l with
  | nil =>
    intro cur hc
    simp only [batchLoop, List.length_nil, Nat.add_zero]
    rw [Nat.div_eq_of_lt hc, Nat.mod_eq_of_lt hc]
    by_cases hcur : cur.isEmpty
    · rw [if_pos hcur]
      have hz : cur.length = 0 := by simp [List.isEmpty_iff.mp hcur]
      simp [hz]
    · rw [if_neg hcur]
      have hz : cur.length ≠ 0 := by
        intro hc0
        exact hcur (by simpa using List.length_eq_zero.mp hc0)
      simp [hz]
  | cons r rs ih =>
    intro cur hc
    simp only [batchLoop]
    by_cases h : b ≤ (cur ++ [r]).length
    · rw [if_pos h, List.nil_append, batchLoop_acc b rs [cur ++ [r]] [], List.map_append,
        ih [] (by simp only [List.length_nil]; omega)]
      have hlen : cur.length + 1 = b := by
        simp only [List.length_append, List.length_cons, List.length_nil] at h
        omega
      have h1 : (cur.length + (r :: rs).length) / b = rs.length / b + 1 := by
        have heq : cur.length + (r :: rs).length = rs.length + b := by
          simp only [List.length_cons]
          omega
        rw [heq, Nat.add_div_right _ (by omega)]
      have h2 : (cur.length + (r :: rs).length) % b = rs.length % b := by
        have heq : cur.length + (r :: rs).length = rs.length + b := by
          simp only [List.length_cons]
          omega
        rw [heq, Nat.add_mod_right]
      rw [h1, h2, List.replicate_succ]
      simp only [List.map_cons, List.map_nil, List.cons_append, List.nil_append,
        List.length_append, List.length_cons, List.length_nil, Nat.zero_add, hlen]
    · rw [if_neg h, ih (cur ++ [r])
        (by simp only [List.length_append, List.length_cons, List.length_nil] at h ⊢; omega)]
      have heq : (cur ++ [r]).length + rs.length = cur.length + (r :: rs).length := by
        simp only [List.length_append, List.length_cons, List.length_nil]
        omega
      rw [heq]

/-- Ceiling division, written with floor division and the remainder. -/
theorem ceilDiv_eq (b n : Nat) (hb : 1 ≤ b) :
    (n + b - 1) / b = n / b + (if n % b = 0 then 0 else 1) := by
  rcases Nat.eq_zero_or_pos (n % b) with h | h
  · rw [if_pos h]
    have hn := Nat.div_add_mod n b
    have heq : n + b - 1 = b * (n / b) + (b - 1) := by omega
    rw [heq, Nat.mul_add_div (by omega), Nat.div_eq_of_lt (show b - 1 < b by omega)]
  · rw [if_neg (by omega)]
    have hn := Nat.div_add_mod n b
    have hr : n % b < b := Nat.mod_lt _ (by omega)
    have heq : n + b - 1 = b * (n / b + 1) + (n % b - 1) := by ring_nf; omega
    rw [heq, Nat.mul_add_div (by omega), Nat.div_eq_of_lt (show n % b - 1 < b by omega)]

/-- C6: for any batch size `b ≥ 1`, `generate_batch_inserts` groups the `n`
rendered rows, in order, into `ceil(n / b)` batches whose sizes are `b`
except possibly a shorter final batch of `n mod b`, and it returns `n`. -/
theorem generate_batch_inserts_spec (b : Nat) (rows : List CsvRow) (hb : 1 ≤ b) :
    (generate_batch_inserts b rows).2 = rows.length ∧
    (generate_batch_inserts b rows).1.flatten = rows.map tupleB ∧
    (generate_batch_inserts b rows).1.map List.length =
      List.replicate (rows.length / b) b ++
        (if rows.length % b = 0 then [] else [rows.length % b]) ∧
    (generate_batch_inserts b rows).1.length = (rows.length + b - 1) / b := by
  have hmap := batchLoop_lengths b hb (rows.map tupleB) []
    (by simp only [List.length_nil]; omega)
  simp only [List.length_nil, List.length_map, Nat.zero_add] at hmap
  refine ⟨rfl, ?_, ?_, ?_⟩
  · rw [show (generate_batch_inserts b rows).1 = batchLoop b (rows.map tupleB) [] [] from rfl,
      batchLoop_flatten]
    simp
  · rw [show (generate_batch_inserts b rows).1 = batchLoop b (rows.map tupleB) [] [] from rfl,
      hmap]
  · have hlen : (generate_batch_inserts b rows).1.length =
        ((generate_batch_inserts b rows).1.map List.length).length := by simp
    rw [hlen,
      show (generate_batch_inserts b rows).1 = batchLoop b (rows.map tupleB) [] [] from rfl,
      hmap, ceilDiv_eq b rows.length hb]
    simp only [List.length_append, List.length_replicate]
    split_ifs <;> simp

/-- Witness for C6: batch size 2 on 5 rows gives batch sizes `[2, 2, 1]`
and returns 5. -/
theorem generate_batch_inserts_spec_witness :
    (generate_batch_inserts 2 (List.replicate 5 ⟨[], [], [], []⟩)).1.map List.length =
      [2, 2, 1] ∧
    (generate_batch_inserts 2 (List.replicate 5 ⟨[], [], [], []⟩)).2 = 5 := by
  have h := generate_batch_inserts_spec 2 (List.replicate 5 ⟨[], [], [], []⟩) (by decide)
  refine ⟨?_, by rw [h.1]; decide⟩
  rw [h.2.2.1]
  decide

/-! ## Lemmas: strings (claims C3, C7, C9) -/

theorem isWs_cases {c : Char} (h : isWs c = true) :
    c = ' ' ∨ c = '\t' ∨ c = '\n' ∨ c = '\r' ∨ c = '\x0b' ∨ c = '\x0c' := by
  simp only [isWs, Bool.or_eq_true, beq_iff_eq] at h
  tauto

theorem ws_not_comma {c : Char} (h : isWs c = true) : c ≠ ',' := by
  rcases isWs_cases h with rfl | rfl | rfl | rfl | rfl | rfl <;> decide

theorem ws_not_deg {c : Char} (h : isWs c = true) : c ≠ '°' := by
  rcases isWs_cases h with rfl | rfl | rfl | rfl | rfl | rfl <;> decide

theorem tokChar_not_ws {c : Char} (h : tokChar c = true) : isWs c = false := by
  by_contra hws
  rw [Bool.not_eq_false] at hws
  rcases isWs_cases hws with rfl | rfl | rfl | rfl | rfl | rfl <;>
    exact absurd h (by decide)

theorem tokChar_not_comma {c : Char} (h : tokChar c = true) : c ≠ ',' := by
  rintro rfl
  exact absurd h (by decide)

theorem tokChar_not_deg {c : Char} (h : tokChar c = true) : c ≠ '°' := by
  rintro rfl
  exact absurd h (by decide)

theorem removeDeg_append (a b : Str) :
    removeDeg (a ++ b) = removeDeg a ++ removeDeg b := by
  simp [removeDeg]

theorem removeDeg_comma_cons (l : Str) : removeDeg (',' :: l) = ',' :: removeDeg l := by
  simp [removeDeg, List.filter_cons]

theorem removeDeg_deg : removeDeg ['°'] = [] := by decide

theorem removeDeg_of_no_deg {l : Str} (h : ∀ c ∈ l, c ≠ '°') : removeDeg l = l := by
  refine List.filter_eq_self.mpr ?_
  intro c hc
  simpa using h c hc

theorem removeDeg_ws {w : Str} (h : allWs w) : removeDeg w = w :=
  removeDeg_of_no_deg (fun c hc => ws_not_deg (h c hc))

theorem removeDeg_tok {t : Str} (h : numTok t) : removeDeg t = t :=
  removeDeg_of_no_deg (fun c hc => tokChar_not_deg (h.2 c hc))

theorem dropWhile_append_all {p : Char → Bool} {a : Str} (ha : ∀ c ∈ a, p c = true)
    (b : Str) : (a ++ b).dropWhile p = b.dropWhile p := by
  induction a with
  | nil => rfl
  | cons c r ih =>
    rw [List.cons_append, List.dropWhile_cons, if_pos (ha c (List.mem_cons_self c r))]
    exact ih (fun x hx => ha x (List.mem_cons_of_mem c hx))

/-- Stripping a string that is a non-whitespace-delimited core surrounded by
whitespace yields the core. -/
theorem stripWs_sandwich {w1 w2 core : Str}
    (hw1 : allWs w1) (hw2 : allWs w2)
    (hhead : ∃ c0 r, core = c0 :: r ∧ isWs c0 = false)
    (hlast : ∃ r cl, core = r ++ [cl] ∧ isWs cl = false) :
    stripWs (w1 ++ (core ++ w2)) = core := by
  obtain ⟨c0, r0, hc0, hnws0⟩ := hhead
  obtain ⟨r1, cl, hc1, hnws1⟩ := hlast
  unfold stripWs dropWs
  rw [dropWhile_append_all hw1]
  rw [hc0, List.cons_append, List.dropWhile_cons, if_neg (by simp [hnws0]), ← List.cons_append,
    ← hc0]
  rw [List.reverse_append,
    dropWhile_append_all (fun c hc => hw2 c (List.mem_reverse.mp hc))]
  rw [hc1, List.reverse_append, List.reverse_singleton, List.singleton_append,
    List.dropWhile_cons, if_neg (by simp [hnws1]), List.reverse_cons, List.reverse_reverse,
    ← hc1]

theorem mem_stripWs {c : Char} {s : Str} (h : c ∈ stripWs s) : c ∈ s := by
  unfold stripWs dropWs at h
  rw [List.mem_reverse] at h
  have h2 : c ∈ (s.dropWhile isWs).reverse := (List.dropWhile_sublist _).subset h
  rw [List.mem_reverse] at h2
  exact (List.dropWhile_sublist _).subset h2

theorem splitC_ne_nil (s : Str) : splitC s ≠ [] := by
  induction s with
  | nil => simp [splitC]
  | cons c r ih =>
    simp only [splitC]
    split_ifs
    · simp
    · cases hcr : splitC r <;> simp

theorem splitC_no_comma {s : Str} (h : ∀ c ∈ s, c ≠ ',') : splitC s = [s] := by
  induction s with
  | nil => rfl
  | cons c r ih =>
    simp only [splitC]
    rw [if_neg (h c (List.mem_cons_self c r)),
      ih (fun x hx => h x (List.mem_cons_of_mem c hx))]

theorem splitC_append_comma (x b : Str) (hb : ∀ c ∈ b, c ≠ ',') :
    splitC (x ++ ',' :: b) = splitC x ++ [b] := by
  induction x with
  | nil =>
    simp only [List.nil_append, splitC, if_pos rfl, splitC_no_comma hb]
    rfl
  | cons c x' ih =>
    by_cases hc : c = ','
    · subst hc
      simp [splitC, ih, List.cons_append]
    · obtain ⟨h0, t0, hx⟩ := List.exists_cons_of_ne_nil (splitC_ne_nil x')
      simp only [List.cons_append, splitC, if_neg hc]
      have ih2 : splitC (List.append x' (',' :: b)) = splitC x' ++ [b] := ih
      rw [ih2, hx]
      simp [List.cons_append]

theorem removeDeg_nil : removeDeg [] = [] := rfl

theorem allWs_append {a b : Str} (ha : allWs a) (hb : allWs b) : allWs (a ++ b) := by
  intro c hc
  rcases List.mem_append.mp hc with h | h
  · exact ha c h
  · exact hb c h

theorem allWs_nil : allWs [] := fun c hc => absurd hc (List.not_mem_nil c)

/-- A numeric token starts and ends with non-whitespace characters. -/
theorem head_last_tok {t : Str} (h : numTok t) :
    (∃ c0 r, t = c0 :: r ∧ isWs c0 = false) ∧
    (∃ r cl, t = r ++ [cl] ∧ isWs cl = false) := by
  obtain ⟨hne, hall⟩ := h
  obtain ⟨c0, r, rfl⟩ := List.exists_cons_of_ne_nil hne
  refine ⟨⟨c0, r, rfl, tokChar_not_ws (hall c0 (List.mem_cons_self _ _))⟩, ?_⟩
  have hne2 : (c0 :: r).reverse ≠ [] := by simp
  obtain ⟨cl, r2, hrev⟩ := List.exists_cons_of_ne_nil hne2
  refine ⟨r2.reverse, cl, ?_, ?_⟩
  · rw [← List.reverse_reverse (c0 :: r), hrev, List.reverse_cons]
  · have hclmem : cl ∈ c0 :: r := by
      rw [← List.mem_reverse, hrev]
      exact List.mem_cons_self _ _
    exact tokChar_not_ws (hall cl hclmem)

/-! ## Claims C3 and C9 -/

/-- C3: `parse_latlng` succeeds on every well-formed coordinate string —
two numeric tokens separated by a comma, each optionally suffixed by a
degree sign, all surrounded by arbitrary whitespace — returning the two
parsed values; it returns no coordinate for any string without a comma
(including the empty string) and for any string whose first or second
comma field is not numeric; and a record whose coordinate string fails to
parse is skipped (contributes no entry), not an error. -/
theorem parse_latlng_spec :
    (∀ (w1 t1 w2 d1 w3 w4 t2 w5 d2 w6 : Str) (q1 q2 : Dec),
      allWs w1 → numTok t1 → allWs w2 → (d1 = [] ∨ d1 = ['°']) → allWs w3 →
      allWs w4 → numTok t2 → allWs w5 → (d2 = [] ∨ d2 = ['°']) → allWs w6 →
      pyFloat t1 = some q1 → pyFloat t2 = some q2 →
      parse_latlng (w1 ++ (t1 ++ (w2 ++ (d1 ++ (w3 ++ (',' ::
        (w4 ++ (t2 ++ (w5 ++ (d2 ++ w6)))))))))) = some (q1, q2)) ∧
    (∀ s : Str, ',' ∉ s → parse_latlng s = none) ∧
    (∀ (s p0 p1 : Str) (rest : List Str),
      splitC (stripWs (removeDeg s)) = p0 :: p1 :: rest →
      pyFloat (stripWs p0) = none ∨ pyFloat (stripWs p1) = none →
      parse_latlng s = none) ∧
    (∀ (localOff : Int) (sig : Signal), parse_latlng sig.latLng = none →
      processSignal localOff sig = none) ∧
    (∀ (localOff : Int) (p : TPoint), parse_latlng p.point = none →
      processPoint localOff p = none) := by
  refine ⟨?_, ?_, ?_, ?_, ?_⟩
  · intro w1 t1 w2 d1 w3 w4 t2 w5 d2 w6 q1 q2 hw1 ht1 hw2 hd1 hw3 hw4 ht2 hw5 hd2 hw6 hq1 hq2
    obtain ⟨⟨c0, r0, ht1e, hc0⟩, ⟨r1, cl, ht1l, hcl⟩⟩ := head_last_tok ht1
    obtain ⟨⟨c2, r2, ht2e, hc2⟩, ⟨r3, cl3, ht2l, hcl3⟩⟩ := head_last_tok ht2
    have hrd1 : removeDeg d1 = [] := by
      rcases hd1 with rfl | rfl
      · rfl
      · exact removeDeg_deg
    have hrd2 : removeDeg d2 = [] := by
      rcases hd2 with rfl | rfl
      · rfl
      · exact removeDeg_deg
    have hnc1 : ∀ c ∈ t1 ++ (w2 ++ w3), c ≠ ',' := by
      intro c hc
      rcases List.mem_append.mp hc with h | h
      · exact tokChar_not_comma (ht1.2 c h)
      · rcases List.mem_append.mp h with h2 | h2
        · exact ws_not_comma (hw2 c h2)
        · exact ws_not_comma (hw3 c h2)
    have hnc2 : ∀ c ∈ w4 ++ t2, c ≠ ',' := by
      intro c hc
      rcases List.mem_append.mp hc with h | h
      · exact ws_not_comma (hw4 c h)
      · exact tokChar_not_comma (ht2.2 c h)
    have hA : removeDeg (w1 ++ (t1 ++ (w2 ++ (d1 ++ (w3 ++ (',' ::
        (w4 ++ (t2 ++ (w5 ++ (d2 ++ w6)))))))))) =
        w1 ++ ((t1 ++ (w2 ++ (w3 ++ (',' :: (w4 ++ t2))))) ++ (w5 ++ w6)) := by
      simp only [removeDeg_append, removeDeg_comma_cons, hrd1, hrd2,
        removeDeg_ws hw1, removeDeg_tok ht1, removeDeg_ws hw2, removeDeg_ws hw3,
        removeDeg_ws hw4, removeDeg_tok ht2, removeDeg_ws hw5, removeDeg_ws hw6]
      simp [List.append_assoc]
    have hB : stripWs (w1 ++ ((t1 ++ (w2 ++ (w3 ++ (',' :: (w4 ++ t2))))) ++ (w5 ++ w6))) =
        t1 ++ (w2 ++ (w3 ++ (',' :: (w4 ++ t2)))) := by
      refine stripWs_sandwich hw1 (allWs_append hw5 hw6) ?_ ?_
      · exact ⟨c0, r0 ++ (w2 ++ (w3 ++ (',' :: (w4 ++ t2)))), by rw [ht1e, List.cons_append],
          hc0⟩
      · refine ⟨t1 ++ (w2 ++ (w3 ++ (',' :: (w4 ++ r3)))), cl3, ?_, hcl3⟩
        rw [ht2l]
        simp [List.append_assoc]
    have hsp : splitC (t1 ++ (w2 ++ (w3 ++ (',' :: (w4 ++ t2))))) =
        [t1 ++ (w2 ++ w3), w4 ++ t2] := by
      rw [show t1 ++ (w2 ++ (w3 ++ (',' :: (w4 ++ t2)))) =
          (t1 ++ (w2 ++ w3)) ++ (',' :: (w4 ++ t2)) from by simp [List.append_assoc]]
      rw [splitC_append_comma _ _ hnc2, splitC_no_comma hnc1]
      rfl
    have hst1 : stripWs (t1 ++ (w2 ++ w3)) = t1 :=
      @stripWs_sandwich [] (w2 ++ w3) t1 allWs_nil (allWs_append hw2 hw3)
        ⟨c0, r0, ht1e, hc0⟩ ⟨r1, cl, ht1l, hcl⟩
    have hst2 : stripWs (w4 ++ t2) = t2 := by
      have h0 := @stripWs_sandwich w4 [] t2 hw4 allWs_nil
        ⟨c2, r2, ht2e, hc2⟩ ⟨r3, cl3, ht2l, hcl3⟩
      rwa [List.append_nil] at h0
    simp only [parse_latlng, hA, hB, hsp, hst1, hst2, hq1, hq2]
  · intro s hcomma
    have hnc : ∀ c ∈ stripWs (removeDeg s), c ≠ ',' := by
      intro c hc heq
      subst heq
      exact hcomma (List.mem_of_mem_filter (mem_stripWs hc))
    simp only [parse_latlng, splitC_no_comma hnc]
  · intro s p0 p1 rest hsp hor
    rcases hor with h | h
    · cases h2 : pyFloat (stripWs p1) <;> simp only [parse_latlng, hsp, h, h2]
    · cases h2 : pyFloat (stripWs p0) <;> simp only [parse_latlng, hsp, h, h2]
  · intro localOff sig h
    unfold processSignal
    split
    · rw [h]
    · rfl
  · intro localOff p h
    unfold processPoint
    split
    · rw [h]
    · rfl

/-- Witness for C3: the spec's example `" 49.9 °,  -97.0° "` parses to
`(49.9, -97.0)`, via the theorem applied at its decomposition; and the
malformed strings `"49.9"` (no comma) and `"a,b"` (non-numeric) yield no
coordinate and a skipped record. -/
theorem parse_latlng_spec_witness :
    parse_latlng ((" 49.9 °,  -97.0° ").toList) = some (⟨499, 1⟩, ⟨-97, 0⟩) ∧
    parse_latlng (("49.9").toList) = none ∧
    processSignal 0 ⟨("a,b").toList, ['t'], .vStr []⟩ = none := by
  refine ⟨?_, ?_, ?_⟩
  · have h := parse_latlng_spec.1 [' '] (("49.9").toList) [' '] ['°'] [] ("  ").toList
      (("-97.0").toList) [] ['°'] [' '] ⟨499, 1⟩ ⟨-97, 0⟩
      (by decide) (by decide) (by decide) (Or.inr rfl) (by decide)
      (by decide) (by decide) (by decide) (Or.inr rfl) (by decide)
      (by decide) (by decide)
    rw [show (" 49.9 °,  -97.0° ").toList =
        [' '] ++ ((("49.9").toList) ++ ([' '] ++ (['°'] ++ ([] ++ (',' ::
          ((("  ").toList) ++ ((("-97.0").toList) ++ ([] ++ (['°'] ++ [' ']))))))))) from by
      decide]
    exact h
  · exact parse_latlng_spec.2.1 (("49.9").toList) (by decide)
  · exact parse_latlng_spec.2.2.2.1 0 ⟨("a,b").toList, ['t'], .vStr []⟩ (by decide)

/-- C9: `parse_latlng` is a total function — every string yields either a
coordinate pair or the no-coordinate result, never an error — and a string
splitting into more than two comma fields is accepted whenever the first
two fields are numeric, the remaining fields being ignored. -/
theorem parse_latlng_total :
    (∀ s : Str, parse_latlng s = none ∨ ∃ q : Dec × Dec, parse_latlng s = some q) ∧
    (∀ (s p0 p1 : Str) (rest : List Str) (q1 q2 : Dec),
      splitC (stripWs (removeDeg s)) = p0 :: p1 :: rest →
      pyFloat (stripWs p0) = some q1 → pyFloat (stripWs p1) = some q2 →
      parse_latlng s = some (q1, q2)) := by
  constructor
  · intro s
    cases h : parse_latlng s with
    | none => exact Or.inl rfl
    | some q => exact Or.inr ⟨q, rfl⟩
  · intro s p0 p1 rest q1 q2 hsp h1 h2
    simp only [parse_latlng, hsp, h1, h2]

/-- Witness for C9: a string with four commas parses from its first two
fields, the rest ignored. -/
theorem parse_latlng_total_witness :
    parse_latlng (("1.0,2.0,junk,,").toList) = some (⟨1, 0⟩, ⟨2, 0⟩) :=
  parse_latlng_total.2 (("1.0,2.0,junk,,").toList) (("1.0").toList) (("2.0").toList)
    [("junk").toList, [], []] ⟨1, 0⟩ ⟨2, 0⟩ (by decide) (by decide) (by decide)

/-! ## Lemmas: the calendar (claim C4) -/

theorem isLeap_iff (y : Int) :
    isLeap y = true ↔ (y % 4 = 0 ∧ (¬y % 100 = 0 ∨ y % 400 = 0)) := by
  simp [isLeap, Bool.and_eq_true, Bool.or_eq_true, Bool.not_eq_true', beq_iff_eq,
    beq_eq_false_iff_ne]

theorem nextDay_civil {y : Int} {m d : Nat} (hv : validDate y m d)
    {y' : Int} {m' d' : Nat} (h : nextDay y m d = some (y', m', d')) :
    civilToDays y' m' d' = civilToDays y m d + 1 := by
  obtain ⟨hm1, hm2, hd1, hd2⟩ := hv
  have hLP := isLeap_iff y
  unfold nextDay at h
  split_ifs at h with h1 h2 h3
  · simp only [Option.some_inj, Prod.mk.injEq] at h
    obtain ⟨rfl, rfl, rfl⟩ := h
    simp only [civilToDays]
    split_ifs <;> omega
  · simp only [Option.some_inj, Prod.mk.injEq] at h
    obtain ⟨rfl, rfl, rfl⟩ := h
    have hdim : d = daysInMonth y m := by omega
    subst hdim
    rcases hb : isLeap y with _ | _ <;> rw [hb] at hLP <;>
      interval_cases m <;>
      simp_all [daysInMonth, civilToDays, monthOffset] <;> omega
  · simp only [Option.some_inj, Prod.mk.injEq] at h
    obtain ⟨rfl, rfl, rfl⟩ := h
    have hm12 : m = 12 := by omega
    subst hm12
    have hdim : d = 31 := by
      have h31 : daysInMonth y 12 = 31 := rfl
      omega
    subst hdim
    simp only [civilToDays, monthOffset]
    split_ifs <;> omega

theorem prevDay_civil {y : Int} {m d : Nat} (hv : validDate y m d)
    {y' : Int} {m' d' : Nat} (h : prevDay y m d = some (y', m', d')) :
    civilToDays y' m' d' = civilToDays y m d - 1 := by
  obtain ⟨hm1, hm2, hd1, hd2⟩ := hv
  have hLP := isLeap_iff y
  unfold prevDay at h
  split_ifs at h with h1 h2 h3
  · simp only [Option.some_inj, Prod.mk.injEq] at h
    obtain ⟨rfl, rfl, rfl⟩ := h
    simp only [civilToDays]
    split_ifs <;> omega
  · simp only [Option.some_inj, Prod.mk.injEq] at h
    obtain ⟨rfl, rfl, rfl⟩ := h
    have hd : d = 1 := by omega
    subst hd
    rcases hb : isLeap y with _ | _ <;> rw [hb] at hLP <;>
      interval_cases m <;>
      simp_all [daysInMonth, civilToDays, monthOffset] <;> omega
  · simp only [Option.some_inj, Prod.mk.injEq] at h
    obtain ⟨rfl, rfl, rfl⟩ := h
    have hd : d = 1 := by omega
    have hm : m = 1 := by omega
    subst hd
    subst hm
    simp only [civilToDays, monthOffset]
    split_ifs <;> omega

theorem mkDT_valid {y mo d h mi s mic : Nat} {off : Option OffRaw} {dt : DT} {o : Option Int}
    (hm : mkDT y mo d h mi s mic off = some (dt, o)) :
    validDT dt ∧ ∀ x, o = some x → -86340 ≤ x ∧ x ≤ 86340 := by
  unfold mkDT at hm
  split_ifs at hm with hc
  simp only [Option.some_inj, Prod.mk.injEq] at hm
  obtain ⟨hdt, ho⟩ := hm
  subst hdt
  subst ho
  obtain ⟨h1, h2, h3, h4, h5, h6, h7, h8, h9, h10⟩ := hc
  constructor
  · unfold validDT
    dsimp only
    exact ⟨by exact_mod_cast h1, by exact_mod_cast h2, h3, h4, h5, h6, h7, h8, h9⟩
  · intro x hx
    cases hoff : off with
    | none => rw [hoff] at hx; exact Option.noConfusion hx
    | some oraw =>
      rw [hoff] at hx
      simp only [Option.map_some', Option.some_inj] at hx
      have hbound := h10 oraw (by simp [hoff])
      rw [← hx]
      unfold offVal
      obtain ⟨hh, hmm⟩ := hbound
      split_ifs <;> omega

theorem fromiso_valid {s : Str} {dt : DT} {o : Option Int}
    (h : fromisoformat s = some (dt, o)) :
    validDT dt ∧ ∀ x, o = some x → -86340 ≤ x ∧ x ≤ 86340 := by
  unfold fromisoformat at h
  split at h
  · split at h
    · exact mkDT_valid h
    · split at h
      · exact mkDT_valid h
      · exact Option.noConfusion h
  · exact Option.noConfusion h

theorem toUtc_epoch {dt : DT} {off : Int} (hv : validDT dt)
    (hoff : -86340 ≤ off ∧ off ≤ 86340) {u : DT} (hu : toUtc dt off = some u) :
    epochSecs u = epochSecs dt - off := by
  obtain ⟨hy1, hy2, hm1, hm2, hd1, hd2, hh, hmi, hs⟩ := hv
  simp only [toUtc] at hu
  rcases had : addDays dt.year dt.month dt.day
      (((dt.hour : Int) * 3600 + (dt.minute : Int) * 60 + (dt.second : Int) - off) / 86400)
    with _ | ymd
  · rw [had] at hu
    exact Option.noConfusion hu
  · rw [had] at hu
    obtain ⟨y2, m2, d2⟩ := ymd
    simp only [Option.map_some', Option.some_inj] at hu
    subst hu
    have hdelta :
        ((dt.hour : Int) * 3600 + (dt.minute : Int) * 60 + (dt.second : Int) - off) / 86400 = -1 ∨
        ((dt.hour : Int) * 3600 + (dt.minute : Int) * 60 + (dt.second : Int) - off) / 86400 = 0 ∨
        ((dt.hour : Int) * 3600 + (dt.minute : Int) * 60 + (dt.second : Int) - off) / 86400 = 1 := by
      omega
    rcases hdelta with hD | hD | hD <;> rw [hD] at had <;> simp only [addDays] at had
    · have hciv := prevDay_civil ⟨hm1, hm2, hd1, hd2⟩ had
      unfold epochSecs at hciv ⊢
      dsimp only at hciv ⊢
      omega
    · simp only [Option.some_inj, Prod.mk.injEq] at had
      obtain ⟨rfl, rfl, rfl⟩ := had
      unfold epochSecs
      dsimp only
      omega
    · have hciv := nextDay_civil ⟨hm1, hm2, hd1, hd2⟩ had
      unfold epochSecs at hciv ⊢
      dsimp only at hciv ⊢
      omega

theorem isDig_digCh (d : Nat) : isDig (digCh d) = true := by
  unfold digCh
  split <;> rfl

theorem isFixedUtc_format (u : DT) : isFixedUtc (formatUtc u) = true := by
  show isFixedUtc
    (pad4 u.year.toNat ++ ['-'] ++ pad2 u.month ++ ['-'] ++ pad2 u.day ++
      ['T'] ++ pad2 u.hour ++ [':'] ++ pad2 u.minute ++ [':'] ++ pad2 u.second ++ ['Z']) = true
  simp only [pad4, pad2, List.cons_append, List.nil_append, List.singleton_append]
  unfold isFixedUtc
  simp [isDig_digCh]

/-! ## Claim C4 -/

/-- C4 counterexample: `"9999-12-31T23:00:00-02:00"` is an ISO-8601
timestamp with an explicit offset, yet `convert_to_utc` returns it
unchanged (not in the fixed UTC format): the conversion would reach year
10000, `astimezone` raises `OverflowError`, and the catch-all except
returns the input. -/
theorem convert_to_utc_overflow_cex :
    fromisoformat (replaceZ (("9999-12-31T23:00:00-02:00").toList)) =
      some (⟨9999, 12, 31, 23, 0, 0, 0⟩, some (-7200)) ∧
    convert_to_utc 0 (("9999-12-31T23:00:00-02:00").toList) =
      ("9999-12-31T23:00:00-02:00").toList ∧
    isFixedUtc (("9999-12-31T23:00:00-02:00").toList) = false := by
  refine ⟨by decide, ?_, by decide⟩
  exact convert_to_utc_overflow 0
    (show fromisoformat (replaceZ (("9999-12-31T23:00:00-02:00").toList)) =
        some (⟨9999, 12, 31, 23, 0, 0, 0⟩, some (-7200)) from by decide)
    (show toUtc ⟨9999, 12, 31, 23, 0, 0, 0⟩ (-7200) = none from by decide)

/-- C4 (amended): `convert_to_utc` never raises; on a string it fails to
parse it returns the input unchanged; on a parsed timestamp with an
explicit offset whose conversion stays within years 1..9999 it returns the
same instant in the fixed format `YYYY-MM-DDTHH:MM:SSZ` (same count of
seconds since the epoch, at second precision); and when the conversion
overflows that range it returns the input unchanged.  The local timezone
`localOff` is never consulted for offset-aware timestamps. -/
theorem convert_to_utc_spec :
    (∀ (localOff : Int) (s : Str), fromisoformat (replaceZ s) = none →
      convert_to_utc localOff s = s) ∧
    (∀ (localOff : Int) (s : Str) (dt : DT) (off : Int) (u : DT),
      fromisoformat (replaceZ s) = some (dt, some off) → toUtc dt off = some u →
      convert_to_utc localOff s = formatUtc u ∧
      isFixedUtc (formatUtc u) = true ∧
      epochSecs u = epochSecs dt - off) ∧
    (∀ (localOff : Int) (s : Str) (dt : DT) (off : Int),
      fromisoformat (replaceZ s) = some (dt, some off) → toUtc dt off = none →
      convert_to_utc localOff s = s) := by
  refine ⟨?_, ?_, ?_⟩
  · intro localOff s hp
    exact convert_to_utc_noparse localOff hp
  · intro localOff s dt off u hp ht
    obtain ⟨hv, hb⟩ := fromiso_valid hp
    refine ⟨convert_to_utc_aware localOff hp ht, isFixedUtc_format u, ?_⟩
    exact toUtc_epoch hv (hb off rfl) ht
  · intro localOff s dt off hp ht
    exact convert_to_utc_overflow localOff hp ht

/-- Witness for C4: the example timestamp `2024-01-01T10:00:00-06:00`
converts to `2024-01-01T16:00:00Z`, the same instant six hours ahead. -/
theorem convert_to_utc_spec_witness :
    convert_to_utc 0 (("2024-01-01T10:00:00-06:00").toList) =
      ("2024-01-01T16:00:00Z").toList ∧
    epochSecs ⟨2024, 1, 1, 16, 0, 0, 0⟩ = epochSecs ⟨2024, 1, 1, 10, 0, 0, 0⟩ - (-21600) ∧
    convert_to_utc 0 (("not a timestamp").toList) = ("not a timestamp").toList := by
  have h := convert_to_utc_spec.2.1 0 (("2024-01-01T10:00:00-06:00").toList)
    ⟨2024, 1, 1, 10, 0, 0, 0⟩ (-21600) ⟨2024, 1, 1, 16, 0, 0, 0⟩ (by decide) (by decide)
  refine ⟨?_, h.2.2, ?_⟩
  · rw [h.1]
    decide
  · exact convert_to_utc_spec.1 0 (("not a timestamp").toList) (by decide)

/-! ## Lemmas: SQL tuple texts (claim C7) -/

theorem toDecAux_digits {fuel n : Nat} {c : Char} (h : c ∈ toDecAux fuel n) :
    isDig c = true := by
  induction fuel generalizing n with
  | zero => simp [toDecAux] at h
  | succ f ih =>
    simp only [toDecAux] at h
    split_ifs at h with h10
    · rcases List.mem_singleton.mp h with rfl
      exact isDig_digCh n
    · rcases List.mem_append.mp h with h2 | h2
      · exact ih h2
      · rcases List.mem_singleton.mp h2 with rfl
        exact isDig_digCh (n % 10)

theorem floatRepr_chars {x : Dec} {c : Char} (h : c ∈ floatRepr x) :
    isDig c = true ∨ c = '-' ∨ c = '.' := by
  simp only [floatRepr] at h
  rcases List.mem_append.mp h with h1 | h1
  · rcases List.mem_append.mp h1 with h2 | h2
    · rcases List.mem_append.mp h2 with h3 | h3
      · split_ifs at h3
        · rcases List.mem_singleton.mp h3 with rfl
          exact Or.inr (Or.inl rfl)
        · exact absurd h3 (List.not_mem_nil c)
      · exact Or.inl (toDecAux_digits h3)
    · rcases List.mem_singleton.mp h2 with rfl
      exact Or.inr (Or.inr rfl)
  · split_ifs at h1
    · rcases List.mem_singleton.mp h1 with rfl
      exact Or.inl (by decide)
    · rcases List.mem_append.mp h1 with h2 | h2
      · rcases List.eq_of_mem_replicate h2 with rfl
        exact Or.inl (by decide)
      · exact Or.inl (toDecAux_digits h2)

theorem pyNumStr_chars {n : PyNum} {c : Char} (h : c ∈ pyNumStr n) :
    isDig c = true ∨ c = '-' ∨ c = '.' := by
  cases n with
  | int m =>
    simp only [pyNumStr] at h
    rcases List.mem_append.mp h with h1 | h1
    · split_ifs at h1
      · rcases List.mem_singleton.mp h1 with rfl
        exact Or.inr (Or.inl rfl)
      · exact absurd h1 (List.not_mem_nil c)
    · exact Or.inl (toDecAux_digits h1)
  | float x => exact floatRepr_chars h

theorem pyNumStr_no_comma (n : PyNum) : ∀ c ∈ pyNumStr n, c ≠ ',' := by
  intro c hc heq
  subst heq
  rcases pyNumStr_chars hc with h | h | h
  · exact absurd h (by decide)
  · exact absurd h (by decide)
  · exact absurd h (by decide)

theorem altText_no_comma (a : Option PyNum) : ∀ c ∈ altText a, c ≠ ',' := by
  cases a with
  | none => intro c hc; exact absurd hc (List.not_mem_nil c)
  | some n => exact pyNumStr_no_comma n

theorem altText_ne_NULL (a : Option PyNum) : altText a ≠ ("NULL").toList := by
  cases a with
  | none => decide
  | some n =>
    intro hcontra
    have hN : 'N' ∈ pyNumStr n := by
      rw [show altText (some n) = pyNumStr n from rfl] at hcontra
      rw [hcontra]
      decide
    rcases pyNumStr_chars hN with h | h | h
    · exact absurd h (by decide)
    · exact absurd h (by decide)
    · exact absurd h (by decide)

theorem lastThree_append (L : List Str) (a b c : Str) :
    lastThree (L ++ [a, b, c]) = some (a, b, c) := by
  unfold lastThree
  rw [List.reverse_append]
  rfl

theorem removeSuffix_append (suf s : Str) : removeSuffix suf (s ++ suf) = some s := by
  unfold removeSuffix
  rw [if_pos (show (suf.reverse.isPrefixOf (s ++ suf).reverse) = true by
    rw [List.reverse_append]
    exact List.isPrefixOf_iff_prefix.mpr (List.prefix_append _ _))]
  rw [List.length_append, Nat.add_sub_cancel, List.take_left]

theorem recoverTuple_spec (X lat lng alt suffix : Str)
    (hlat : ∀ c ∈ lat, c ≠ ',') (hlng : ∀ c ∈ lng, c ≠ ',')
    (halt : ∀ c ∈ alt, c ≠ ',') (hsuf : ∀ c ∈ suffix, c ≠ ',') :
    recoverTuple suffix
      (((X ++ (',' :: (' ' :: lat))) ++ (',' :: (' ' :: lng))) ++
        (',' :: (' ' :: (alt ++ suffix)))) = some (lat, lng, alt) := by
  have h1 : ∀ c ∈ (' ' :: lat), c ≠ ',' := by
    intro c hc
    rcases List.mem_cons.mp hc with rfl | hc2
    · decide
    · exact hlat c hc2
  have h2 : ∀ c ∈ (' ' :: lng), c ≠ ',' := by
    intro c hc
    rcases List.mem_cons.mp hc with rfl | hc2
    · decide
    · exact hlng c hc2
  have h3 : ∀ c ∈ (' ' :: (alt ++ suffix)), c ≠ ',' := by
    intro c hc
    rcases List.mem_cons.mp hc with rfl | hc2
    · decide
    · rcases List.mem_append.mp hc2 with h | h
      · exact halt c h
      · exact hsuf c h
  unfold recoverTuple
  rw [splitC_append_comma _ _ h3, splitC_append_comma _ _ h2, splitC_append_comma _ _ h1,
    show splitC X ++ [' ' :: lat] ++ [' ' :: lng] ++ [' ' :: (alt ++ suffix)] =
      splitC X ++ [' ' :: lat, ' ' :: lng, ' ' :: (alt ++ suffix)] from by simp,
    lastThree_append]
  show (do
    let a ← removeSuffix suffix (dropOneSpace (' ' :: (alt ++ suffix)))
    pure (dropOneSpace (' ' :: lat), dropOneSpace (' ' :: lng), a) : Option (Str × Str × Str)) =
    some (lat, lng, alt)
  rw [show dropOneSpace (' ' :: (alt ++ suffix)) = alt ++ suffix from rfl, removeSuffix_append]
  rfl

/-! ## Claim C7 -/

/-- C7: in both generator modes the rendered value tuple carries the CSV
row's latitude, longitude and altitude texts verbatim — recoverable by
parsing the tuple's last three comma fields — with an empty altitude
rendered as the literal `NULL` and a non-empty altitude inlined unquoted;
and every row the extractor produces satisfies the recovery's premises
(its numeric fields contain no comma and its altitude text is never the
literal `NULL`). -/
theorem sql_tuple_roundtrip :
    (∀ row : CsvRow,
      (∀ c ∈ row.latitude, c ≠ ',') → (∀ c ∈ row.longitude, c ≠ ',') →
      (∀ c ∈ row.altitude, c ≠ ',') →
      recoverTuple ((");").toList) (tupleA row) =
        some (row.latitude, row.longitude, altClause row.altitude) ∧
      recoverTuple ([')']) (tupleB row) =
        some (row.latitude, row.longitude, altClause row.altitude)) ∧
    (altClause [] = ("NULL").toList) ∧
    (∀ alt : Str, alt ≠ [] → alt ≠ ("NULL").toList → altClause alt = alt) ∧
    (∀ (localOff : Int) (doc : Document) (e : Entry),
      e ∈ extract_gps_coordinates localOff doc →
      (∀ c ∈ (toCsvRow e).latitude, c ≠ ',') ∧
      (∀ c ∈ (toCsvRow e).longitude, c ≠ ',') ∧
      (∀ c ∈ (toCsvRow e).altitude, c ≠ ',') ∧
      (toCsvRow e).altitude ≠ ("NULL").toList) := by
  refine ⟨?_, by decide, ?_, ?_⟩
  · intro row hlat hlng halt
    have haltc : ∀ c ∈ altClause row.altitude, c ≠ ',' := by
      unfold altClause
      split_ifs
      · decide
      · decide
      · exact halt
    constructor
    · have hshape : tupleA row =
          ((((("INSERT INTO GPS_COORDINATES (datetime_utc, latitude, longitude, altitude_meters) VALUES (TO_TIMESTAMP_TZ('").toList ++
              replaceZ (escQuotes row.datetime)) ++
              ("', 'YYYY-MM-DD\"T\"HH24:MI:SSTZH:TZM')").toList) ++
            (',' :: (' ' :: row.latitude))) ++ (',' :: (' ' :: row.longitude))) ++
            (',' :: (' ' :: (altClause row.altitude ++ (");").toList))) := by
        simp only [tupleA]
        rw [show ("', 'YYYY-MM-DD\"T\"HH24:MI:SSTZH:TZM'), ").toList =
            ("', 'YYYY-MM-DD\"T\"HH24:MI:SSTZH:TZM')").toList ++ (',' :: [' ']) from by decide,
          show (", ").toList = ',' :: [' '] from by decide]
        simp [List.append_assoc]
      rw [hshape]
      exact recoverTuple_spec _ _ _ _ _ hlat hlng haltc (by decide)
    · have hshape : tupleB row =
          ((((('(' :: pyRepr (escQuotes row.datetime)) ++
            (',' :: (' ' :: row.latitude))) ++ (',' :: (' ' :: row.longitude))) ++
            (',' :: (' ' :: (altClause row.altitude ++ [')']))))) := by
        simp only [tupleB]
        rw [show (", ").toList = ',' :: [' '] from by decide]
        simp [List.append_assoc]
      rw [hshape]
      exact recoverTuple_spec _ _ _ _ _ hlat hlng haltc (by decide)
  · intro alt hne hnull
    unfold altClause
    rw [if_neg (by simpa using hne), if_neg hnull]
  · intro localOff doc e _hmem
    exact ⟨fun c hc heq => absurd (floatRepr_chars (heq ▸ hc))
        (by rintro (h | h | h) <;> revert h <;> decide),
      fun c hc heq => absurd (floatRepr_chars (heq ▸ hc))
        (by rintro (h | h | h) <;> revert h <;> decide),
      altText_no_comma e.altitude, altText_ne_NULL e.altitude⟩

/-- Witness for C7 at a concrete extractor row (empty and non-empty
altitude). -/
theorem sql_tuple_roundtrip_witness :
    recoverTuple ((");").toList)
      (tupleA ⟨("2024-01-01T16:00:00Z").toList, ("49.9").toList, ("-97.0").toList, []⟩) =
      some (("49.9").toList, ("-97.0").toList, ("NULL").toList) ∧
    recoverTuple ([')'])
      (tupleB ⟨("2024-01-01T16:00:00Z").toList, ("49.9").toList, ("-97.0").toList,
        ("232.7").toList⟩) =
      some (("49.9").toList, ("-97.0").toList, ("232.7").toList) := by
  constructor
  · have h := (sql_tuple_roundtrip.1
      ⟨("2024-01-01T16:00:00Z").toList, ("49.9").toList, ("-97.0").toList, []⟩
      (by decide) (by decide) (by decide)).1
    rw [h]
    decide
  · have h := (sql_tuple_roundtrip.1
      ⟨("2024-01-01T16:00:00Z").toList, ("49.9").toList, ("-97.0").toList,
        ("232.7").toList⟩
      (by decide) (by decide) (by decide)).2
    rw [h]
    decide
